import Mathlib

/-!
# Catalog configuration provider and patch stage provider

A shallow embedding of
`api/pkg/apis/v1alpha1/providers/config/catalog/catalogprovider.go` and
`api/pkg/apis/v1alpha1/providers/stage/patch/patch.go`.

Conventions of the embedding:

* a Go `interface{}` holding decoded JSON is a `Value`; a Go map is the list of
  its entries, a key being looked up at its first occurrence;
* a Go function returning `(T, error)` returns `Except Fault T`, where a
  `Fault` is the returned `error`, a run-time panic, or the exhaustion of the
  recursion budget (`fuel`) that stands for a Go recursion that never ends;
* the REST helpers of package `utils`, the expression parser and the JSON
  codec are collaborators of the providers and are taken as parameters.
-/

set_option autoImplicit false

/-! ## Values -/

/-- A dynamically typed Go value: the `nil` interface, the three JSON scalars
(numbers, which the JSON decoder gives one numeric type, are integers here),
`[]interface{}`, `map[string]interface{}`, and a `model.ComponentSpec` struct
(with its name and its property map) stored in an interface. -/
inductive Value where
  | null
  | str (s : String)
  | num (n : Int)
  | bool (b : Bool)
  | seq (xs : List Value)
  | map (kvs : List (String × Value))
  | component (name : String) (properties : List (String × Value))

/-- The property maps of catalogs, components and payloads. -/
abbrev Props := List (String × Value)

/-- The Go expression `v, ok := m[k]`: the entry of `k`, if the key is present. -/
def lookup (k : String) : Props → Option Value
  | [] => none
  | (k1, v) :: rest => if k1 = k then some v else lookup k rest

/-- The Go expression `m[k]` read as a value: `nil` when the key is absent. -/
def index (m : Props) (k : String) : Value :=
  match lookup k m with
  | some v => v
  | none => Value.null

/-- The Go statement `m[k] = v`: overwrite the entry of `k`, or add one. -/
def assign (k : String) (v : Value) : Props → Props
  | [] => [(k, v)]
  | (k1, v1) :: rest => if k1 = k then (k, v) :: rest else (k1, v1) :: assign k v rest

/-- The Go comparison `a == b` of two interface values. Values of different
dynamic types are unequal; values of one comparable type are compared; two
values of one type that is not comparable (slices, maps, structs holding
maps) make the comparison panic, which is `none`. -/
def goEq : Value → Value → Option Bool
  | Value.null, Value.null => some true
  | Value.str a, Value.str b => some (decide (a = b))
  | Value.num a, Value.num b => some (decide (a = b))
  | Value.bool a, Value.bool b => some (decide (a = b))
  | Value.seq _, Value.seq _ => none
  | Value.map _, Value.map _ => none
  | Value.component _ _, Value.component _ _ => none
  | _, _ => some false

/-! ## Errors -/

/-- The states of `v1alpha2.COAError` used by the two providers. -/
inductive State where
  | BadConfig
  | NotFound
  deriving DecidableEq, Repr

/-- A Go `error`: a `v1alpha2.COAError` built by `NewCOAError(nil, msg, state)`,
or an error of another package (the JSON codec, the REST client). -/
inductive GoError where
  | coa (message : String) (state : State)
  | foreign (description : String)
  deriving DecidableEq, Repr

/-- The ways a call fails to produce its value: it returns an error, it panics,
or the recursion budget of the model is used up. -/
inductive Fault where
  | error (e : GoError)
  | panic
  | outOfFuel
  deriving DecidableEq, Repr

/-! ## Model types -/

/-- The part of `model.CatalogSpec` that the providers read. -/
structure CatalogSpec where
  Properties : Props
  ParentName : String

/-- The part of `model.CatalogState` that the providers read; `Spec` is the
target of the (non-nil) pointer of the Go struct. -/
structure CatalogState where
  Id : String
  Spec : CatalogSpec

/-- The part of `model.ComponentSpec` that the patch provider reads and writes. -/
structure ComponentSpec where
  Name : String
  Properties : Props

/-- The part of `model.SolutionSpec` that the patch provider reads and writes. -/
structure SolutionSpec where
  Components : List ComponentSpec

/-- The part of `model.SolutionState` that the patch provider reads. -/
structure SolutionState where
  Id : String
  Spec : SolutionSpec

/-- A `model.ComponentSpec` stored in an interface. -/
def ComponentSpec.toValue (c : ComponentSpec) : Value :=
  Value.component c.Name c.Properties

/-- The fields of `coa_utils.EvaluationContext` that the providers set;
`DeploymentSpec` is `Value.null` for a nil reference. -/
structure EvaluationContext where
  Inputs : Value
  Outputs : Value
  Properties : Value
  Component : Value
  DeploymentSpec : Value
  Value : Value

/-- The `localcontext interface{}` argument of the catalog provider: nil, an
`EvaluationContext`, or a value of any other type. -/
inductive LocalContext where
  | nil
  | evaluationContext (ltx : EvaluationContext)
  | other (v : Value)

/-- The collaborators of the two providers, fixed for the length of a call:
`utils.GetCatalog`, `utils.GetSolution`, `utils.UpsertSolution` (with the
provider's base URL, user and password), `stage.ReadInputString`, the JSON
round trip into a `model.ComponentSpec`, `EvaluationContext.Clone`, the
vendor's evaluation context and `Parser.Eval`. -/
structure Env where
  GetCatalog : String → Except GoError CatalogState
  GetSolution : String → String → Except GoError SolutionState
  UpsertSolution : String → String → SolutionSpec → Option GoError
  ReadInputString : Props → String → String
  UnmarshalComponentSpec : Value → Except GoError ComponentSpec
  Clone : EvaluationContext → EvaluationContext
  Eval : EvaluationContext → String → Except GoError Value
  EvaluationContext : EvaluationContext

/-- The message `fmt.Sprintf("field '%s' is not found in configuration '%s'", field, name)`. -/
def notFoundMessage (field name : String) : String :=
  "field '" ++ field ++ "' is not found in configuration '" ++ name ++ "'"

/-! ## The loops of `traceValue`, common to the two providers -/

/-- The loop `for _, v := range val` of `traceValue` over a slice: trace each
element with `f`, stopping at the first failure. -/
def traceSeq (f : Value → Except Fault Value) : List Value → Except Fault (List Value)
  | [] => Except.ok []
  | v :: rest =>
    match f v with
    | Except.error e => Except.error e
    | Except.ok tv =>
      match traceSeq f rest with
      | Except.error e => Except.error e
      | Except.ok tvs => Except.ok (tv :: tvs)

/-- The loop `for k, v := range val` of `traceValue` over a map: trace each
value with `f` under its key, stopping at the first failure. The entries are
visited in the order of the list; the traced map does not depend on that
order, only which of several failures is reported. -/
def traceMap (f : Value → Except Fault Value) : Props → Except Fault Props
  | [] => Except.ok []
  | (k, v) :: rest =>
    match f v with
    | Except.error e => Except.error e
    | Except.ok tv =>
      match traceMap f rest with
      | Except.error e => Except.error e
      | Except.ok tvs => Except.ok ((k, tv) :: tvs)

/-! ## The catalog configuration provider -/

namespace CatalogConfigProvider

/-- The evaluation context built for a string leaf (catalogprovider.go, lines
153 to 166): a clone of the vendor's context, given the vendor's deployment
spec, and overlaid with the local context when that is an `EvaluationContext`. -/
def deriveContext (env : Env) (localcontext : LocalContext) : EvaluationContext :=
  let context := env.Clone env.EvaluationContext
  let context := { context with DeploymentSpec := env.EvaluationContext.DeploymentSpec }
  match localcontext with
  | LocalContext.evaluationContext ltx =>
    let context := { context with
      Inputs := ltx.Inputs, Outputs := ltx.Outputs, Value := ltx.Value,
      Properties := ltx.Properties, Component := ltx.Component }
    match ltx.DeploymentSpec with
    | Value.null => context
    | d => { context with DeploymentSpec := d }
  | _ => context

/-- `CatalogConfigProvider.traceValue`. Each recursive call of the Go function
spends one unit of `fuel`. -/
def traceValue (env : Env) (localcontext : LocalContext) : Nat → Value → Except Fault Value
  | 0, _ => Except.error Fault.outOfFuel
  | fuel + 1, Value.str val =>
    match env.Eval (deriveContext env localcontext) val with
    | Except.error e => Except.error (Fault.error e)
    | Except.ok (Value.str vt) => Except.ok (Value.str vt)
    | Except.ok v => traceValue env localcontext fuel v
  | fuel + 1, Value.seq val =>
    match traceSeq (traceValue env localcontext fuel) val with
    | Except.error e => Except.error e
    | Except.ok ret => Except.ok (Value.seq ret)
  | fuel + 1, Value.map val =>
    match traceMap (traceValue env localcontext fuel) val with
    | Except.error e => Except.error e
    | Except.ok ret => Except.ok (Value.map ret)
  | _ + 1, val => Except.ok val

/-- `CatalogConfigProvider.unwindOverrides`. The Go function returns a
`string`: a property that is present is converted by the unchecked assertion
`v.(string)`, which panics on any other value. Each recursive call spends one
unit of `fuel`. -/
def unwindOverrides (env : Env) : Nat → String → String → Except Fault String
  | 0, _, _ => Except.error Fault.outOfFuel
  | fuel + 1, override, field =>
    match env.GetCatalog override with
    | Except.error err => Except.error (Fault.error err)
    | Except.ok catalog =>
      match lookup field catalog.Spec.Properties with
      | some (Value.str s) => Except.ok s
      | some _ => Except.error Fault.panic
      | none =>
        if catalog.Spec.ParentName ≠ "" then
          unwindOverrides env fuel catalog.Spec.ParentName field
        else
          Except.error (Fault.error
            (GoError.coa (notFoundMessage field override) State.NotFound))

/-- `CatalogConfigProvider.Read`. -/
def Read (env : Env) (fuel : Nat) (object field : String) (localcontext : LocalContext) :
    Except Fault Value :=
  match env.GetCatalog object with
  | Except.error err => Except.error (Fault.error err)
  | Except.ok catalog =>
    match lookup field catalog.Spec.Properties with
    | some v => traceValue env localcontext fuel v
    | none =>
      if catalog.Spec.ParentName ≠ "" then
        match unwindOverrides env fuel catalog.Spec.ParentName field with
        | Except.error err => Except.error err
        | Except.ok overrid => Except.ok (Value.str overrid)
      else
        Except.error (Fault.error
          (GoError.coa (notFoundMessage field object) State.NotFound))

/-- The inner loop of `ReadObject` (lines 138 to 142): an entry of a traced
map is stored under its key unless the result already has that key. -/
def mergeMissing (ret : Props) : Props → Props
  | [] => ret
  | (tk, tv) :: rest =>
    match lookup tk ret with
    | some _ => mergeMissing ret rest
    | none => mergeMissing (assign tk tv ret) rest

/-- The outer loop of `ReadObject` (lines 130 to 146) over the properties in
the order in which they are visited; `range` is the order in which the entries
of a traced map are visited. -/
def readObjectLoop (env : Env) (fuel : Nat) (localcontext : LocalContext)
    (range : Props → Props) : Props → Props → Except Fault Props
  | [], ret => Except.ok ret
  | (k, v) :: rest, ret =>
    match traceValue env localcontext fuel v with
    | Except.error err => Except.error err
    | Except.ok (Value.map tmap) =>
      readObjectLoop env fuel localcontext range rest (mergeMissing ret (range tmap))
    | Except.ok tv =>
      readObjectLoop env fuel localcontext range rest (assign k tv ret)

/-- `CatalogConfigProvider.ReadObject`. Go visits the entries of a map in an
order that it chooses anew for every `range` statement; `range m` is the
order chosen for the map `m` during this call. -/
def ReadObject (env : Env) (fuel : Nat) (object : String) (localcontext : LocalContext)
    (range : Props → Props) : Except Fault Props :=
  match env.GetCatalog object with
  | Except.error err => Except.error (Fault.error err)
  | Except.ok catalog =>
    readObjectLoop env fuel localcontext range (range catalog.Spec.Properties) []

end CatalogConfigProvider

/-! ## The patch stage provider -/

namespace PatchStageProvider

/-- `PatchStageProvider.traceValue`. The context of a string leaf is a clone of
the vendor's context whose `Value` is `ctx`. Each recursive call of the Go
function spends one unit of `fuel`. -/
def traceValue (env : Env) (ctx : Value) : Nat → Value → Except Fault Value
  | 0, _ => Except.error Fault.outOfFuel
  | fuel + 1, Value.str val =>
    match env.Eval { env.Clone env.EvaluationContext with Value := ctx } val with
    | Except.error e => Except.error (Fault.error e)
    | Except.ok (Value.str vt) => Except.ok (Value.str vt)
    | Except.ok v => traceValue env ctx fuel v
  | fuel + 1, Value.seq val =>
    match traceSeq (traceValue env ctx fuel) val with
    | Except.error e => Except.error e
    | Except.ok ret => Except.ok (Value.seq ret)
  | fuel + 1, Value.map val =>
    match traceMap (traceValue env ctx fuel) val with
    | Except.error e => Except.error e
    | Except.ok ret => Except.ok (Value.map ret)
  | _ + 1, val => Except.ok val

/-- The result `NewCOAError(nil, msg, v1alpha2.BadConfig)` of `Process`. -/
def badConfig {α : Type} (msg : String) : Except Fault α :=
  Except.error (Fault.error (GoError.coa msg State.BadConfig))

/-- Payload resolution (patch.go, lines 164 to 210): the property map of the
catalog that `Process` goes on to trace. -/
def resolvePayload (env : Env) (patchSource : String) (patchContent : Value)
    (componentName : String) : Except Fault Props :=
  if patchSource = "" ∨ patchSource = "catalog" then
    match patchContent with
    | Value.str v =>
      match env.GetCatalog v with
      | Except.error err => Except.error (Fault.error err)
      | Except.ok catalog => Except.ok catalog.Spec.Properties
    | _ => badConfig "patchContent is not valid"
  else if patchSource = "inline" then
    if componentName ≠ "" then
      match patchContent with
      | Value.map v => Except.ok v
      | _ => badConfig "patchContent is not valid"
    else
      match env.UnmarshalComponentSpec patchContent with
      | Except.error err => Except.error (Fault.error err)
      | Except.ok componentSpec => Except.ok [("spec", componentSpec.toValue)]
  else badConfig "patchSource is not valid"

/-- Payload tracing (patch.go, lines 212 to 220): every property is replaced
by its traced value, the first failure ending the call. -/
def tracePayload (env : Env) (fuel : Nat) (ctx : Value) (properties : Props) :
    Except Fault Props :=
  traceMap (traceValue env ctx fuel) properties

/-- The dedup scan (patch.go, lines 263 to 275 and 302 to 314) over the
entries that remain to be visited: `none` when no entry was replaced
(`replaced` stays false), else the entries with the first match deleted for
`"remove"` and replaced by the payload otherwise. -/
def dedupScan (payload : Props) (dedupKey patchAction : String) :
    List Value → Except Fault (Option (List Value))
  | [] => Except.ok none
  | Value.map vmap :: rest =>
    match goEq (index vmap dedupKey) (index payload dedupKey) with
    | none => Except.error Fault.panic
    | some true =>
      if patchAction = "remove" then Except.ok (some rest)
      else Except.ok (some (Value.map payload :: rest))
    | some false =>
      match dedupScan payload dedupKey patchAction rest with
      | Except.error e => Except.error e
      | Except.ok none => Except.ok none
      | Except.ok (some r) => Except.ok (some (Value.map vmap :: r))
  | v :: rest =>
    match dedupScan payload dedupKey patchAction rest with
    | Except.error e => Except.error e
    | Except.ok none => Except.ok none
    | Except.ok (some r) => Except.ok (some (v :: r))

/-- The dedup-aware upsert or removal of the payload in the addressed
sequence (patch.go, lines 261 to 279 and 300 to 318). -/
def patchSequence (payload : Props) (dedupKey patchAction : String)
    (targetMap : List Value) : Except Fault (List Value) :=
  match (if dedupKey ≠ "" then dedupScan payload dedupKey patchAction targetMap
         else Except.ok none) with
  | Except.error e => Except.error e
  | Except.ok (some r) => Except.ok r
  | Except.ok none =>
    if patchAction ≠ "remove" then Except.ok (targetMap ++ [Value.map payload])
    else Except.ok targetMap

/-- The body of the loop over the properties of the addressed component
(patch.go, lines 255 to 329): the component after the patch, and `udpated`. -/
def patchProperty (payload : Props) (propertyName subKey dedupKey patchAction : String)
    (c : ComponentSpec) : Except Fault (ComponentSpec × Bool) :=
  match lookup propertyName c.Properties with
  | none => Except.ok (c, false)
  | some p =>
    if subKey ≠ "" then
      match p with
      | Value.map detailedTarget =>
        match lookup subKey detailedTarget with
        | some (Value.seq targetMap) =>
          match patchSequence payload dedupKey patchAction targetMap with
          | Except.error e => Except.error e
          | Except.ok r =>
            let written := Value.map (assign subKey (Value.seq r) detailedTarget)
            Except.ok ({ c with Properties := assign propertyName written c.Properties }, true)
        | some _ => badConfig "target properties is not valid"
        | none => badConfig "subKey is not valid"
      | _ => badConfig "subKey is not valid"
    else
      match p with
      | Value.seq targetMap =>
        match patchSequence payload dedupKey patchAction targetMap with
        | Except.error e => Except.error e
        | Except.ok r =>
          Except.ok ({ c with Properties := assign propertyName (Value.seq r) c.Properties }, true)
      | _ => badConfig "target properties is not valid"

/-- The loop over the components of a property-level patch (patch.go, lines
253 to 332): the first component named `componentName` is patched. -/
def patchComponents (payload : Props)
    (componentName propertyName subKey dedupKey patchAction : String) :
    List ComponentSpec → Except Fault (List ComponentSpec × Bool)
  | [] => Except.ok ([], false)
  | c :: rest =>
    if c.Name = componentName then
      match patchProperty payload propertyName subKey dedupKey patchAction c with
      | Except.error e => Except.error e
      | Except.ok (c2, udpated) => Except.ok (c2 :: rest, udpated)
    else
      match patchComponents payload componentName propertyName subKey dedupKey patchAction
          rest with
      | Except.error e => Except.error e
      | Except.ok (r, udpated) => Except.ok (c :: r, udpated)

/-- The loop of a whole-component patch (patch.go, lines 237 to 247): `none`
when no component has the name of `componentSpec`, else the components with
the first such one deleted for `"remove"` and replaced otherwise. -/
def replaceComponent (componentSpec : ComponentSpec) (patchAction : String) :
    List ComponentSpec → Option (List ComponentSpec)
  | [] => none
  | c :: rest =>
    if c.Name = componentSpec.Name then
      if patchAction = "remove" then some rest else some (componentSpec :: rest)
    else
      match replaceComponent componentSpec patchAction rest with
      | none => none
      | some r => some (c :: r)

/-- The whole-component patch (patch.go, lines 236 to 251). The unchecked
assertion `catalog.Spec.Properties["spec"].(model.ComponentSpec)` panics on a
value that is not a component spec. -/
def patchWholeComponent (payload : Props) (patchAction : String)
    (components : List ComponentSpec) : Except Fault (List ComponentSpec × Bool) :=
  match index payload "spec" with
  | Value.component name properties =>
    match replaceComponent (ComponentSpec.mk name properties) patchAction components with
    | some r => Except.ok (r, true)
    | none =>
      if patchAction ≠ "remove" then
        Except.ok (components ++ [ComponentSpec.mk name properties], true)
      else Except.ok (components, false)
  | _ => Except.error Fault.panic

/-- The patch of a fetched solution (patch.go, lines 235 to 333): the
solution spec after the patch, and `udpated`. -/
def patchSolution (payload : Props)
    (componentName propertyName subKey dedupKey patchAction : String)
    (solution : SolutionState) : Except Fault (SolutionSpec × Bool) :=
  match (if componentName = "" then
      patchWholeComponent payload patchAction solution.Spec.Components
    else
      patchComponents payload componentName propertyName subKey dedupKey patchAction
        solution.Spec.Components) with
  | Except.error e => Except.error e
  | Except.ok (components, udpated) => Except.ok (SolutionSpec.mk components, udpated)

/-- What a call of `Process` leaves behind: its return value (the outputs and
the boolean, or the failure) and the calls of `utils.UpsertSolution` it made,
each with the object name, the scope and the solution spec it sent. -/
structure Run where
  result : Except Fault (Props × Bool)
  upserts : List (String × String × SolutionSpec)

/-- The persistence step of `Process` (patch.go, lines 335 to 345): one call
of `utils.UpsertSolution` with the patched spec (which stands for its JSON
encoding), whose error, if any, is the result of `Process`. -/
def persist (env : Env) (objectName objectScope : String) (spec : SolutionSpec) : Run :=
  match env.UpsertSolution objectName objectScope spec with
  | some err => Run.mk (Except.error (Fault.error err)) [(objectName, objectScope, spec)]
  | none => Run.mk (Except.ok ([], false)) [(objectName, objectScope, spec)]

/-- The value of `patchAction` after the default of lines 157 to 159. -/
def actionOf (env : Env) (inputs : Props) : String :=
  if env.ReadInputString inputs "patchAction" = "" then "add"
  else env.ReadInputString inputs "patchAction"

/-- The value of `objectScope` after the default of lines 225 to 227. -/
def scopeOf (env : Env) (inputs : Props) : String :=
  if env.ReadInputString inputs "objectScope" = "" then "default"
  else env.ReadInputString inputs "objectScope"

/-- `PatchStageProvider.Process`. -/
def Process (env : Env) (fuel : Nat) (inputs : Props) : Run :=
  let objectType := env.ReadInputString inputs "objectType"
  let objectName := env.ReadInputString inputs "objectName"
  let patchSource := env.ReadInputString inputs "patchSource"
  let patchContent := index inputs "patchContent"
  let componentName := env.ReadInputString inputs "component"
  let propertyName := env.ReadInputString inputs "property"
  let subKey := env.ReadInputString inputs "subKey"
  let dedupKey := env.ReadInputString inputs "dedupKey"
  let patchAction := actionOf env inputs
  match resolvePayload env patchSource patchContent componentName with
  | Except.error e => Run.mk (Except.error e) []
  | Except.ok properties =>
    match tracePayload env fuel (index inputs "context") properties with
    | Except.error e => Run.mk (Except.error e) []
    | Except.ok payload =>
      if objectType = "solution" then
        let objectScope := scopeOf env inputs
        match env.GetSolution objectName objectScope with
        | Except.error err => Run.mk (Except.error (Fault.error err)) []
        | Except.ok solution =>
          match patchSolution payload componentName propertyName subKey dedupKey
              patchAction solution with
          | Except.error e => Run.mk (Except.error e) []
          | Except.ok (spec, udpated) =>
            if udpated then persist env objectName objectScope spec
            else Run.mk (Except.ok ([], false)) []
      else Run.mk (Except.ok ([], false)) []

end PatchStageProvider

/-! ## Removal of a field of a catalog -/

namespace CatalogConfigProvider

/-- The Go statement `delete(m, k)`: the map without the key `k`. -/
def deleteKey (k : String) : Props → Props
  | [] => []
  | (k1, v) :: rest => if k1 = k then deleteKey k rest else (k1, v) :: deleteKey k rest

/-- What a call of `Remove` leaves behind: the returned error (`ok` for nil)
and the calls of `utils.UpsertCatalog` it made, each with the catalog name and
the catalog spec it sent (which stands for its JSON encoding). -/
structure StoreRun where
  result : Except Fault Unit
  upserts : List (String × CatalogSpec)

/-- `CatalogConfigProvider.Remove`; `upsertCatalog` is `utils.UpsertCatalog`
with the provider's base URL, user and password. -/
def Remove (env : Env) (upsertCatalog : String → CatalogSpec → Option GoError)
    (object field : String) : StoreRun :=
  match env.GetCatalog object with
  | Except.error err => StoreRun.mk (Except.error (Fault.error err)) []
  | Except.ok catlog =>
    match lookup field catlog.Spec.Properties with
    | none =>
      StoreRun.mk (Except.error (Fault.error (GoError.coa "field not found" State.NotFound))) []
    | some _ =>
      let spec := { catlog.Spec with Properties := deleteKey field catlog.Spec.Properties }
      match upsertCatalog object spec with
      | some err => StoreRun.mk (Except.error (Fault.error err)) [(object, spec)]
      | none => StoreRun.mk (Except.ok ()) [(object, spec)]

end CatalogConfigProvider

/-! ## Provider configuration from a string map -/

/-- The Go expression `v, ok := m[k]` on a `map[string]string`. -/
def lookupString (k : String) : List (String × String) → Option String
  | [] => none
  | (k1, v) :: rest => if k1 = k then some v else lookupString k rest

/-- Modelled from the spec: `utils.GetString`, which is not under src/. The
spec lists `baseUrl` and `user` as required and non-empty and `password` as
optional, and the code rejects an empty `baseUrl` and an empty `user` itself:
the entry of a key is read as it is, and a key without an entry is read as the
empty string, without an error. -/
def GetString (properties : List (String × String)) (key : String) : Except GoError String :=
  match lookupString key properties with
  | some v => Except.ok v
  | none => Except.ok ""

/-- `CatalogConfigProviderConfig`. -/
structure CatalogConfigProviderConfig where
  BaseUrl : String
  User : String
  Password : String

/-- `CatalogConfigProviderConfigFromMap`; `getString` is `utils.GetString`. -/
def CatalogConfigProviderConfigFromMap
    (getString : List (String × String) → String → Except GoError String)
    (properties : List (String × String)) : Except GoError CatalogConfigProviderConfig :=
  match getString properties "baseUrl" with
  | Except.error err => Except.error err
  | Except.ok baseUrl =>
    if baseUrl = "" then Except.error (GoError.coa "baseUrl is required" State.BadConfig)
    else
      match getString properties "user" with
      | Except.error err => Except.error err
      | Except.ok user =>
        if user = "" then Except.error (GoError.coa "user is required" State.BadConfig)
        else
          match getString properties "password" with
          | Except.error err => Except.error err
          | Except.ok password => Except.ok (CatalogConfigProviderConfig.mk baseUrl user password)

/-- `PatchStageProviderConfig`. -/
structure PatchStageProviderConfig where
  BaseUrl : String
  User : String
  Password : String

/-- `SymphonyStageProviderConfigFromMap` of the patch stage provider;
`getString` is `utils.GetString`. -/
def SymphonyStageProviderConfigFromMap
    (getString : List (String × String) → String → Except GoError String)
    (properties : List (String × String)) : Except GoError PatchStageProviderConfig :=
  match getString properties "baseUrl" with
  | Except.error err => Except.error err
  | Except.ok baseUrl =>
    if baseUrl = "" then Except.error (GoError.coa "baseUrl is required" State.BadConfig)
    else
      match getString properties "user" with
      | Except.error err => Except.error err
      | Except.ok user =>
        if user = "" then Except.error (GoError.coa "user is required" State.BadConfig)
        else
          match getString properties "password" with
          | Except.error err => Except.error err
          | Except.ok password => Except.ok (PatchStageProviderConfig.mk baseUrl user password)

/-! ## The instances manager -/

namespace InstancesManager

/-- Modelled from the spec: an entry of the state store behind the instances
manager, which is not under src/: its id, the scope it is kept in, and its
body. -/
structure StateEntry where
  ID : String
  Scope : String
  Body : Value

/-- Modelled from the spec: the state store behind the instances manager
(`memorystate.MemoryStateProvider`), which is not under src/. It is the
key-value store of section 6 of the spec, with `Get(id) -> entry | NotFound`,
`Upsert(id, entry)`, `Delete(id) -> ok | NotFound` and `List() -> [entry]`;
its content is the list of its entries, at most one for an id and a scope. -/
abbrev Store := List StateEntry

/-- Modelled from the spec: `Get(id) -> entry | NotFound` of the state store,
which is not under src/. -/
def storeGet : Store → String → String → Except GoError StateEntry
  | [], id, _ => Except.error (GoError.coa ("entry '" ++ id ++ "' is not found") State.NotFound)
  | e :: rest, id, scope =>
    if e.ID = id ∧ e.Scope = scope then Except.ok e else storeGet rest id scope

/-- Modelled from the spec: `Upsert(id, entry)` of the state store, which is
not under src/: the entry replaces the one of its id and scope, or is added. -/
def storeUpsert : Store → StateEntry → Store
  | [], entry => [entry]
  | e :: rest, entry =>
    if e.ID = entry.ID ∧ e.Scope = entry.Scope then entry :: rest
    else e :: storeUpsert rest entry

/-- Modelled from the spec: `Delete(id) -> ok | NotFound` of the state store,
which is not under src/. -/
def storeDelete : Store → String → String → Except GoError Store
  | [], id, _ => Except.error (GoError.coa ("entry '" ++ id ++ "' is not found") State.NotFound)
  | e :: rest, id, scope =>
    if e.ID = id ∧ e.Scope = scope then Except.ok rest
    else
      match storeDelete rest id scope with
      | Except.error err => Except.error err
      | Except.ok kept => Except.ok (e :: kept)

/-- Modelled from the spec: `List() -> [entry]` of the state store, which is
not under src/, for one scope. -/
def storeList (store : Store) (scope : String) : List StateEntry :=
  store.filter (fun e => decide (e.Scope = scope))

/-- The part of `model.InstanceState` that the test of the manager reads. -/
structure InstanceState where
  Id : String
  Spec : Value

/-- Modelled from the spec: `InstancesManager.UpsertSpec`, which is not under
src/ (only its test is), after `CatalogsManager.UpsertSpec`: one `Upsert` of
the state store with an entry whose id is the name. -/
def UpsertSpec (store : Store) (name : String) (spec : Value) (scope : String) :
    Except GoError Store :=
  Except.ok (storeUpsert store (StateEntry.mk name scope spec))

/-- Modelled from the spec: `InstancesManager.GetSpec`, which is not under
src/ (only its test is), after `CatalogsManager.GetSpec`: one `Get` of the
state store, the entry becoming a state with the requested name as its id. -/
def GetSpec (store : Store) (name scope : String) : Except GoError InstanceState :=
  match storeGet store name scope with
  | Except.error err => Except.error err
  | Except.ok entry => Except.ok (InstanceState.mk name entry.Body)

/-- Modelled from the spec: `InstancesManager.ListSpec`, which is not under
src/ (only its test is), after `CatalogsManager.ListSpec`: one `List` of the
state store, every entry becoming a state with the entry's id. -/
def ListSpec (store : Store) (scope : String) : Except GoError (List InstanceState) :=
  Except.ok ((storeList store scope).map (fun e => InstanceState.mk e.ID e.Body))

/-- Modelled from the spec: `InstancesManager.DeleteSpec`, which is not under
src/ (only its test is), after `CatalogsManager.DeleteSpec`: one `Delete` of
the state store. -/
def DeleteSpec (store : Store) (name scope : String) : Except GoError Store :=
  storeDelete store name scope

end InstancesManager

/-! ## Notions used to state the properties -/

/-- A value that Go can compare with `==` without a panic: nil or a scalar. -/
def comparable : Value → Bool
  | Value.seq _ => false
  | Value.map _ => false
  | Value.component _ _ => false
  | _ => true

/-- An entry of the addressed sequence matches the payload when it is a
mapping whose `dedupKey` field compares equal (Go `==`) to the payload's. -/
def isMatch (payload : Props) (dedupKey : String) : Value → Bool
  | Value.map vmap =>
    match goEq (index vmap dedupKey) (index payload dedupKey) with
    | some true => true
    | _ => false
  | _ => false

/-- The walk along parent names: `Skips env field start ids last` holds when
the catalogs from `start` on exist, lack `field`, and name as their non-empty
parents the catalogs `ids` in turn, the last of which is `last` (`start`
itself when `ids` is empty). -/
def Skips (env : Env) (field : String) : String → List String → String → Prop
  | start, [], last => start = last
  | start, next :: rest, last =>
    ∃ catalog, env.GetCatalog start = Except.ok catalog ∧
      lookup field catalog.Spec.Properties = none ∧
      catalog.Spec.ParentName = next ∧ next ≠ "" ∧ Skips env field next rest last

mutual
/-- A value without a string leaf at any depth. -/
def stringFree : Value → Bool
  | Value.str _ => false
  | Value.seq xs => stringFreeSeq xs
  | Value.map kvs => stringFreeMap kvs
  | Value.component _ properties => stringFreeMap properties
  | _ => true
/-- Every element of the sequence is without a string leaf. -/
def stringFreeSeq : List Value → Bool
  | [] => true
  | x :: xs => stringFree x && stringFreeSeq xs
/-- Every value of the mapping is without a string leaf. -/
def stringFreeMap : List (String × Value) → Bool
  | [] => true
  | (_, v) :: rest => stringFree v && stringFreeMap rest
end

mutual
/-- The nesting depth of the sequences and mappings of a value, which is the
number of recursive calls that `traceValue` stacks on a string-free value. -/
def depth : Value → Nat
  | Value.seq xs => depthSeq xs + 1
  | Value.map kvs => depthMap kvs + 1
  | _ => 0
/-- The greatest depth of an element of the sequence. -/
def depthSeq : List Value → Nat
  | [] => 0
  | x :: xs => max (depth x) (depthSeq xs)
/-- The greatest depth of a value of the mapping. -/
def depthMap : List (String × Value) → Nat
  | [] => 0
  | (_, v) :: rest => max (depth v) (depthMap rest)
end

/-! ## Sample collaborators, used to run the model on concrete inputs -/

namespace Sample

/-- A `stage.ReadInputString` on string inputs: the string stored under the
key, and the empty string when the key is absent. -/
def readInputString (inputs : Props) (key : String) : String :=
  match lookup key inputs with
  | some (Value.str s) => s
  | _ => ""

/-- A catalog store holding the listed catalogs under their ids. -/
def getCatalog : List CatalogState → String → Except GoError CatalogState
  | [], id => Except.error (GoError.coa ("catalog '" ++ id ++ "' is not found") State.NotFound)
  | c :: rest, id => if c.Id = id then Except.ok c else getCatalog rest id

/-- A solution store holding the listed solutions under their ids, in every scope. -/
def getSolution : List SolutionState → String → String → Except GoError SolutionState
  | [], id, _ => Except.error (GoError.coa ("solution '" ++ id ++ "' is not found") State.NotFound)
  | s :: rest, id, scope => if s.Id = id then Except.ok s else getSolution rest id scope

/-- A JSON round trip into a component spec: a mapping with a string `name`
decodes to the component of that name with the mapping's `properties`. -/
def unmarshalComponentSpec (v : Value) : Except GoError ComponentSpec :=
  match v with
  | Value.map kvs =>
    match lookup "name" kvs, lookup "properties" kvs with
    | some (Value.str n), some (Value.map ps) => Except.ok (ComponentSpec.mk n ps)
    | some (Value.str n), none => Except.ok (ComponentSpec.mk n [])
    | _, _ => Except.error (GoError.foreign "json: cannot unmarshal")
  | _ => Except.error (GoError.foreign "json: cannot unmarshal")

/-- An evaluation context with every field nil. -/
def emptyContext : EvaluationContext :=
  EvaluationContext.mk Value.null Value.null Value.null Value.null Value.null Value.null

/-- An environment over the given catalogs and solutions whose evaluator
returns every template as it is and whose upserts succeed. -/
def env (catalogs : List CatalogState) (solutions : List SolutionState) : Env :=
  Env.mk (getCatalog catalogs) (getSolution solutions) (fun _ _ _ => none)
    readInputString unmarshalComponentSpec (fun c => c)
    (fun _ s => Except.ok (Value.str s)) emptyContext

/-- The solution `s` with one component `c` whose property `p` is the
sequence of the single entry `id: a`. -/
def solutionS : SolutionState :=
  SolutionState.mk "s" (SolutionSpec.mk
    [ComponentSpec.mk "c" [("p", Value.seq [Value.map [("id", Value.str "a")]])]])

/-- A property-level request on `s`: remove from property `p` of component `c`
the entry whose `id` is `z`. -/
def removeAbsentEntry : Props :=
  [("objectType", Value.str "solution"), ("objectName", Value.str "s"),
   ("patchSource", Value.str "inline"),
   ("patchContent", Value.map [("id", Value.str "z")]),
   ("component", Value.str "c"), ("property", Value.str "p"),
   ("dedupKey", Value.str "id"), ("patchAction", Value.str "remove")]

/-- The sequence of the dedup example: the entries `id: a, v: 1` and `id: b, v: 2`. -/
def exampleSequence : List Value :=
  [Value.map [("id", Value.str "a"), ("v", Value.num 1)],
   Value.map [("id", Value.str "b"), ("v", Value.num 2)]]

/-- The payload of the dedup example: `id: a, v: 9`. -/
def examplePayload : Props := [("id", Value.str "a"), ("v", Value.num 9)]

/-- An environment like `env` whose evaluator fails on every template. -/
def envFailingEval (catalogs : List CatalogState) : Env :=
  Env.mk (getCatalog catalogs) (getSolution []) (fun _ _ _ => none)
    readInputString unmarshalComponentSpec (fun c => c)
    (fun _ _ => Except.error (GoError.foreign "evaluation failed")) emptyContext

/-- The chain `c3 → c2 → c1` with the field `k` on `c1` only. -/
def chainCatalogs : List CatalogState :=
  [CatalogState.mk "c3" (CatalogSpec.mk [] "c2"),
   CatalogState.mk "c2" (CatalogSpec.mk [("other", Value.num 0)] "c1"),
   CatalogState.mk "c1" (CatalogSpec.mk [("k", Value.str "$config(region, zone)")] "")]

/-- The catalogs `base`, with `timeout` set to the string `30`, and `derived`,
with parent `base` and no properties. -/
def baseDerived : List CatalogState :=
  [CatalogState.mk "base" (CatalogSpec.mk [("timeout", Value.str "30")] ""),
   CatalogState.mk "derived" (CatalogSpec.mk [] "base")]

/-- The catalogs `base`, with `k` set to the number 5, and `derived`, with
parent `base` and no properties. -/
def numberOnBase : List CatalogState :=
  [CatalogState.mk "base" (CatalogSpec.mk [("k", Value.num 5)] ""),
   CatalogState.mk "derived" (CatalogSpec.mk [] "base")]

/-- An evaluator that resolves the template `$config(shared)` to the mapping
`a: 1` and returns every other template as it is. -/
def evalShared (_ : EvaluationContext) (template : String) : Except GoError Value :=
  if template = "$config(shared)" then Except.ok (Value.map [("a", Value.num 1)])
  else Except.ok (Value.str template)

/-- An environment over the given catalogs with the evaluator `evalShared`. -/
def envShared (catalogs : List CatalogState) : Env :=
  Env.mk (getCatalog catalogs) (getSolution []) (fun _ _ _ => none)
    readInputString unmarshalComponentSpec (fun c => c) evalShared emptyContext

/-- The catalog `app`: property `x` is a template tracing to the mapping
`a: 1`, and the sibling property `a` is the number 2. -/
def appCatalog : List CatalogState :=
  [CatalogState.mk "app" (CatalogSpec.mk
    [("x", Value.str "$config(shared)"), ("a", Value.num 2)] "")]

/-- A whole-component request on `s`: add (the default action) the inline
component named `c`, which has no properties. -/
def replaceComponentC : Props :=
  [("objectType", Value.str "solution"), ("objectName", Value.str "s"),
   ("patchSource", Value.str "inline"),
   ("patchContent", Value.map [("name", Value.str "c")])]

/-- A whole-component request on `s`: remove the inline component named
`ghost`, a name that no component of `s` has. -/
def removeGhostComponent : Props :=
  [("objectType", Value.str "solution"), ("objectName", Value.str "s"),
   ("patchSource", Value.str "inline"),
   ("patchContent", Value.map [("name", Value.str "ghost")]),
   ("patchAction", Value.str "remove")]

/-- A property-level request on `s` with the sub-key `rules`: property `p` of
component `c` is a sequence, not a mapping. -/
def subKeyOnSequence : Props :=
  [("objectType", Value.str "solution"), ("objectName", Value.str "s"),
   ("patchSource", Value.str "inline"),
   ("patchContent", Value.map [("id", Value.str "a")]),
   ("component", Value.str "c"), ("property", Value.str "p"),
   ("subKey", Value.str "rules"), ("dedupKey", Value.str "id")]

/-- The catalogs `a` and `b`, each the parent of the other, without properties. -/
def cyclicCatalogs : List CatalogState :=
  [CatalogState.mk "a" (CatalogSpec.mk [] "b"),
   CatalogState.mk "b" (CatalogSpec.mk [] "a")]

/-- An evaluator that resolves every template to the sequence holding that
template. -/
def evalNesting (_ : EvaluationContext) (template : String) : Except GoError Value :=
  Except.ok (Value.seq [Value.str template])

/-- An environment without catalogs whose evaluator is `evalNesting`. -/
def envNesting : Env :=
  Env.mk (getCatalog []) (getSolution []) (fun _ _ _ => none)
    readInputString unmarshalComponentSpec (fun c => c) evalNesting emptyContext

/-- A whole-component request on `s` whose inline content is the number 7,
which is not the encoding of a component spec. -/
def undecodableComponent : Props :=
  [("objectType", Value.str "solution"), ("objectName", Value.str "s"),
   ("patchSource", Value.str "inline"), ("patchContent", Value.num 7)]

/-- A request on `s` from the patch source `file`, which is not a source that
`Process` knows. -/
def unknownSource : Props :=
  [("objectType", Value.str "solution"), ("objectName", Value.str "s"),
   ("patchSource", Value.str "file"), ("patchContent", Value.str "c")]

/-- The catalogs `base`, with `timeout` set to the string `30`, and
`override`, with parent `base` and its own `timeout` set to the string `45`. -/
def overriding : List CatalogState :=
  [CatalogState.mk "base" (CatalogSpec.mk [("timeout", Value.str "30")] ""),
   CatalogState.mk "override" (CatalogSpec.mk [("timeout", Value.str "45")] "base")]

/-- The catalog `pair`: the properties `x` and `y` are the mappings `a: 1` and
`a: 2`, which share the nested key `a`. -/
def pairCatalog : List CatalogState :=
  [CatalogState.mk "pair" (CatalogSpec.mk
    [("x", Value.map [("a", Value.num 1)]), ("y", Value.map [("a", Value.num 2)])] "")]

/-- A vendor context whose inputs hold `region: eu` and whose deployment spec
is the string `fleet`. -/
def regionContext : EvaluationContext :=
  EvaluationContext.mk (Value.map [("region", Value.str "eu")]) Value.null Value.null
    Value.null (Value.str "fleet") Value.null

/-- An environment without catalogs whose vendor context is `regionContext`
and whose `Clone` returns an equal copy. -/
def envRegion : Env :=
  Env.mk (getCatalog []) (getSolution []) (fun _ _ _ => none)
    readInputString unmarshalComponentSpec (fun c => c)
    (fun _ s => Except.ok (Value.str s)) regionContext

/-- A local context that sets the ambient value to `7` and nothing else. -/
def valueOnly : EvaluationContext :=
  EvaluationContext.mk Value.null Value.null Value.null Value.null Value.null (Value.num 7)

/-- The catalog `componentPatch`, whose property `spec` is the mapping
`name: c`, as decoded from the JSON of the catalog store. -/
def componentPatchCatalog : List CatalogState :=
  [CatalogState.mk "componentPatch" (CatalogSpec.mk
    [("spec", Value.map [("name", Value.str "c")])] "")]

/-- A whole-component request on `s` whose payload is the catalog
`componentPatch`. -/
def patchFromCatalog : Props :=
  [("objectType", Value.str "solution"), ("objectName", Value.str "s"),
   ("patchSource", Value.str "catalog"), ("patchContent", Value.str "componentPatch")]

/-- A request on an object of type `target`, with an inline payload. -/
def patchTarget : Props :=
  [("objectType", Value.str "target"), ("objectName", Value.str "t"),
   ("patchSource", Value.str "inline"),
   ("patchContent", Value.map [("id", Value.str "a")]),
   ("component", Value.str "c"), ("property", Value.str "p")]

/-- A property-level request on `s`: add the entry `id: b` to the property `p`
of component `c`, with the dedup key `id`. -/
def addEntryB : Props :=
  [("objectType", Value.str "solution"), ("objectName", Value.str "s"),
   ("patchSource", Value.str "inline"),
   ("patchContent", Value.map [("id", Value.str "b")]),
   ("component", Value.str "c"), ("property", Value.str "p"),
   ("dedupKey", Value.str "id")]

/-- A property-level request on `s` that names the component `ghost`, which
`s` does not have. -/
def patchGhostProperty : Props :=
  [("objectType", Value.str "solution"), ("objectName", Value.str "s"),
   ("patchSource", Value.str "inline"),
   ("patchContent", Value.map [("id", Value.str "b")]),
   ("component", Value.str "ghost"), ("property", Value.str "p"),
   ("dedupKey", Value.str "id")]

/-- The catalogs `base`, which holds a number under `n`, a bool under `b`, a
sequence under `q`, a mapping under `m` and nil under `z`, and `derived`, with
parent `base` and no properties. -/
def shapesOnBase : List CatalogState :=
  [CatalogState.mk "base" (CatalogSpec.mk
    [("n", Value.num 5), ("b", Value.bool true), ("q", Value.seq [Value.num 1]),
     ("m", Value.map [("a", Value.num 1)]), ("z", Value.null)] ""),
   CatalogState.mk "derived" (CatalogSpec.mk [] "base")]

/-- The solution `s` with one component `c` whose property `p` is the empty
sequence. -/
def solutionEmptyP : SolutionState :=
  SolutionState.mk "s" (SolutionSpec.mk [ComponentSpec.mk "c" [("p", Value.seq [])]])

/-- The solution `s` with one component `c` whose property `p` is the
sequence of the single entry `id: [1]`. -/
def solutionSeqKey : SolutionState :=
  SolutionState.mk "s" (SolutionSpec.mk
    [ComponentSpec.mk "c" [("p", Value.seq [Value.map [("id", Value.seq [Value.num 1])]])]])

/-- A property-level request on `s`: add the entry `id: [1]` to the property
`p` of component `c`, with the dedup key `id`. -/
def addSeqKeyed : Props :=
  [("objectType", Value.str "solution"), ("objectName", Value.str "s"),
   ("patchSource", Value.str "inline"),
   ("patchContent", Value.map [("id", Value.seq [Value.num 1])]),
   ("component", Value.str "c"), ("property", Value.str "p"),
   ("dedupKey", Value.str "id")]

/-- The solution `s` with three components: `front`, then `c` with the
properties `keep` and `p`, then a second component named `c`. -/
def solutionWide : SolutionState :=
  SolutionState.mk "s" (SolutionSpec.mk
    [ComponentSpec.mk "front" [("p", Value.seq [])],
     ComponentSpec.mk "c" [("keep", Value.str "x"),
       ("p", Value.seq [Value.map [("id", Value.str "a")]])],
     ComponentSpec.mk "c" [("p", Value.seq [])]])

end Sample

/-! ## Theorems -/

/-- C1 (failing input): removing from property `p` of component `c` an entry
whose dedup key matches nothing leaves the sequence as it was, and `Process`
still calls `UpsertSolution`, with the unchanged solution spec. -/
theorem C1_unchanged_sequence_is_upserted :
    PatchStageProvider.Process (Sample.env [] [Sample.solutionS]) 3 Sample.removeAbsentEntry
      = PatchStageProvider.Run.mk (Except.ok ([], false))
          [("s", "default", Sample.solutionS.Spec)] := by
  rfl

/-! ### The dedup-aware patch of a sequence -/

theorem goEq_true_comparable {a b : Value} (h : goEq a b = some true) :
    comparable b = true := by
  cases a <;> cases b <;> simp_all [goEq, comparable]

theorem goEq_comparable_ne_none {a b : Value} (h : comparable b = true) :
    goEq a b ≠ none := by
  cases a <;> cases b <;> simp_all [goEq, comparable]

theorem goEq_self {a : Value} (h : comparable a = true) : goEq a a = some true := by
  cases a <;> simp_all [goEq, comparable]

theorem isMatch_payload (payload : Props) (dedupKey : String)
    (h : comparable (index payload dedupKey) = true) :
    isMatch payload dedupKey (Value.map payload) = true := by
  simp [isMatch, goEq_self h]

theorem isMatch_comparable {payload : Props} {dedupKey : String} {v : Value}
    (h : isMatch payload dedupKey v = true) : comparable (index payload dedupKey) = true := by
  cases v with
  | map vmap =>
    simp only [isMatch] at h
    split at h
    · rename_i heq
      exact goEq_true_comparable heq
    · simp at h
  | _ => simp [isMatch] at h

/-- One step of the scan over an entry that does not match, when the payload's
key is comparable: the scan goes on, keeping the entry. -/
theorem dedupScan_cons_of_not_match (payload : Props) (dedupKey patchAction : String)
    (v : Value) (rest : List Value)
    (hcmp : comparable (index payload dedupKey) = true)
    (hv : isMatch payload dedupKey v = false) :
    PatchStageProvider.dedupScan payload dedupKey patchAction (v :: rest)
      = match PatchStageProvider.dedupScan payload dedupKey patchAction rest with
        | Except.error e => Except.error e
        | Except.ok none => Except.ok none
        | Except.ok (some r) => Except.ok (some (v :: r)) := by
  cases v with
  | map vmap =>
    have hne := goEq_comparable_ne_none (a := index vmap dedupKey) hcmp
    simp only [isMatch] at hv
    cases hg : goEq (index vmap dedupKey) (index payload dedupKey) with
    | none => exact absurd hg hne
    | some b =>
      cases b with
      | true => simp [hg] at hv
      | false => simp [PatchStageProvider.dedupScan, hg]
  | _ => simp [PatchStageProvider.dedupScan]

theorem dedupScan_no_match (payload : Props) (dedupKey patchAction : String)
    (hcmp : comparable (index payload dedupKey) = true) (xs : List Value)
    (hxs : ∀ x ∈ xs, isMatch payload dedupKey x = false) :
    PatchStageProvider.dedupScan payload dedupKey patchAction xs = Except.ok none := by
  induction xs with
  | nil => simp [PatchStageProvider.dedupScan]
  | cons v rest ih =>
    rw [dedupScan_cons_of_not_match payload dedupKey patchAction v rest hcmp
      (hxs v (List.mem_cons_self _ _))]
    rw [ih (fun x hx => hxs x (List.mem_cons_of_mem _ hx))]

theorem dedupScan_first_match (payload : Props) (dedupKey patchAction : String)
    (pre : List Value) (m : Value) (post : List Value)
    (hpre : ∀ x ∈ pre, isMatch payload dedupKey x = false)
    (hm : isMatch payload dedupKey m = true) :
    PatchStageProvider.dedupScan payload dedupKey patchAction (pre ++ m :: post)
      = Except.ok (some (if patchAction = "remove" then pre ++ post
          else pre ++ Value.map payload :: post)) := by
  have hcmp := isMatch_comparable hm
  induction pre with
  | nil =>
    cases m with
    | map vmap =>
      simp only [isMatch] at hm
      cases hg : goEq (index vmap dedupKey) (index payload dedupKey) with
      | none => simp [hg] at hm
      | some b =>
        cases b with
        | false => simp [hg] at hm
        | true =>
          by_cases ha : patchAction = "remove" <;>
            simp [PatchStageProvider.dedupScan, hg, ha]
    | _ => simp [isMatch] at hm
  | cons v rest ih =>
    rw [List.cons_append,
      dedupScan_cons_of_not_match payload dedupKey patchAction v _ hcmp
        (hpre v (List.mem_cons_self _ _)),
      ih (fun x hx => hpre x (List.mem_cons_of_mem _ hx))]
    by_cases ha : patchAction = "remove" <;> simp [ha]

theorem patchSequence_first_match (payload : Props) (dedupKey patchAction : String)
    (hk : dedupKey ≠ "") (pre : List Value) (m : Value) (post : List Value)
    (hpre : ∀ x ∈ pre, isMatch payload dedupKey x = false)
    (hm : isMatch payload dedupKey m = true) :
    PatchStageProvider.patchSequence payload dedupKey patchAction (pre ++ m :: post)
      = Except.ok (if patchAction = "remove" then pre ++ post
          else pre ++ Value.map payload :: post) := by
  simp [PatchStageProvider.patchSequence, hk,
    dedupScan_first_match payload dedupKey patchAction pre m post hpre hm]

theorem patchSequence_no_match (payload : Props) (dedupKey patchAction : String)
    (hcmp : comparable (index payload dedupKey) = true) (xs : List Value)
    (hxs : ∀ x ∈ xs, isMatch payload dedupKey x = false) :
    PatchStageProvider.patchSequence payload dedupKey patchAction xs
      = Except.ok (if patchAction = "remove" then xs else xs ++ [Value.map payload]) := by
  have hs := dedupScan_no_match payload dedupKey patchAction hcmp xs hxs
  unfold PatchStageProvider.patchSequence
  rw [hs]
  by_cases hk : dedupKey = "" <;> by_cases ha : patchAction = "remove" <;> simp [hk, ha]

/-- A sequence either has no entry satisfying `p`, or splits at the first one. -/
theorem first_match_split (p : Value → Bool) (xs : List Value) :
    (∀ x ∈ xs, p x = false) ∨
      ∃ pre m post, xs = pre ++ m :: post ∧ p m = true ∧ ∀ x ∈ pre, p x = false := by
  induction xs with
  | nil => left; simp
  | cons v rest ih =>
    cases hv : p v with
    | true => right; exact ⟨[], v, rest, rfl, hv, by simp⟩
    | false =>
      rcases ih with h | ⟨pre, m, post, hx, hm, hpre⟩
      · left
        intro x hx
        rcases List.mem_cons.mp hx with rfl | hx
        · exact hv
        · exact h x hx
      · right
        refine ⟨v :: pre, m, post, by simp [hx], hm, ?_⟩
        intro x hx
        rcases List.mem_cons.mp hx with rfl | hx
        · exact hv
        · exact hpre x hx

/-- The dedup-aware patch with a non-empty dedup key: when entry `m` is the
first entry of the sequence `pre ++ m :: post` that compares equal to the
payload, the patch returns `pre ++ post` for `"remove"` and
`pre ++ payload :: post` for every other action; when no comparison gives
equal, the action is not `"remove"` and the payload's dedup field is nil or a
scalar, the payload is appended at the end. On the example sequence the
default action replaces the first entry and `"remove"` deletes it. -/
theorem patchSequence_dedup_key (payload : Props) (dedupKey patchAction : String)
    (hk : dedupKey ≠ "") :
    (∀ pre m post, (∀ x ∈ pre, isMatch payload dedupKey x = false) →
        isMatch payload dedupKey m = true →
        PatchStageProvider.patchSequence payload dedupKey patchAction (pre ++ m :: post)
          = Except.ok (if patchAction = "remove" then pre ++ post
              else pre ++ Value.map payload :: post)) ∧
    (∀ xs, (∀ x ∈ xs, isMatch payload dedupKey x = false) →
        comparable (index payload dedupKey) = true → patchAction ≠ "remove" →
        PatchStageProvider.patchSequence payload dedupKey patchAction xs
          = Except.ok (xs ++ [Value.map payload])) ∧
    PatchStageProvider.patchSequence Sample.examplePayload "id" "add" Sample.exampleSequence
      = Except.ok [Value.map [("id", Value.str "a"), ("v", Value.num 9)],
          Value.map [("id", Value.str "b"), ("v", Value.num 2)]] ∧
    PatchStageProvider.patchSequence Sample.examplePayload "id" "remove" Sample.exampleSequence
      = Except.ok [Value.map [("id", Value.str "b"), ("v", Value.num 2)]] := by
  refine ⟨?_, ?_, rfl, rfl⟩
  · intro pre m post hpre hm
    exact patchSequence_first_match payload dedupKey patchAction hk pre m post hpre hm
  · intro xs hxs hcmp ha
    rw [patchSequence_no_match payload dedupKey patchAction hcmp xs hxs]
    simp [ha]

/-- The dedup-aware patch at the payload `id: a, v: 9`, the key `id` and the
action `"add"`, on a sequence whose second entry is the first match. -/
theorem patchSequence_dedup_key_example :
    ("id" : String) ≠ "" ∧
    PatchStageProvider.patchSequence Sample.examplePayload "id" "add"
        ([Value.map [("id", Value.str "b")]] ++ Value.map [("id", Value.str "a")] :: [])
      = Except.ok (if ("add" : String) = "remove" then [Value.map [("id", Value.str "b")]] ++ []
          else [Value.map [("id", Value.str "b")]] ++ Value.map Sample.examplePayload :: []) :=
  ⟨by decide,
    (patchSequence_dedup_key Sample.examplePayload "id" "add" (by decide)).1
      [Value.map [("id", Value.str "b")]] (Value.map [("id", Value.str "a")]) []
      (by intro x hx; rw [List.mem_singleton.mp hx]; rfl) rfl⟩

/-- C2 (failing input): the only entry of the sequence is the mapping
`id: [1]` and the dedup key is `id`. With the payload `id: [1]`, whose dedup
field equals the entry's, the patch neither replaces the entry (action
`"add"`) nor deletes it (action `"remove"`): comparing the two sequences
panics. With the payload `id: [2]`, which no entry matches, the payload is not
appended, for the same reason. `Process` on a solution whose property `p` is
that sequence panics too, and makes no upsert. -/
theorem C2_non_scalar_dedup_field_panics :
    PatchStageProvider.patchSequence [("id", Value.seq [Value.num 1])] "id" "add"
        [Value.map [("id", Value.seq [Value.num 1])]]
      = Except.error Fault.panic ∧
    PatchStageProvider.patchSequence [("id", Value.seq [Value.num 1])] "id" "remove"
        [Value.map [("id", Value.seq [Value.num 1])]]
      = Except.error Fault.panic ∧
    PatchStageProvider.patchSequence [("id", Value.seq [Value.num 2])] "id" "add"
        [Value.map [("id", Value.seq [Value.num 1])]]
      = Except.error Fault.panic ∧
    PatchStageProvider.Process (Sample.env [] [Sample.solutionSeqKey]) 3 Sample.addSeqKeyed
      = PatchStageProvider.Run.mk (Except.error Fault.panic) [] :=
  ⟨rfl, rfl, rfl, rfl⟩

theorem countP_eq_zero_of_forall (p : Value → Bool) (xs : List Value)
    (h : ∀ x ∈ xs, p x = false) : xs.countP p = 0 := by
  rw [List.countP_eq_zero]
  intro x hx
  simp [h x hx]

theorem forall_of_countP_eq_zero (p : Value → Bool) (xs : List Value)
    (h : xs.countP p = 0) : ∀ x ∈ xs, p x = false := by
  rw [List.countP_eq_zero] at h
  intro x hx
  simpa using h x hx

/-- The dedup-keyed add applied twice: when the payload's dedup field is nil
or a scalar and at most one entry of the sequence matches the payload, a first
dedup-keyed application of an action other than `"remove"` yields a sequence
`once` that a second application returns as it is; `once` has exactly one
matching entry, every matching entry of `once` is the payload, and `once` is
the sequence with its first match replaced by the payload, or with the payload
appended when nothing matched. -/
theorem patchSequence_add_twice (payload : Props) (dedupKey patchAction : String)
    (xs : List Value) (hk : dedupKey ≠ "") (ha : patchAction ≠ "remove")
    (hcmp : comparable (index payload dedupKey) = true)
    (hone : xs.countP (isMatch payload dedupKey) ≤ 1) :
    ∃ once,
      PatchStageProvider.patchSequence payload dedupKey patchAction xs = Except.ok once ∧
      PatchStageProvider.patchSequence payload dedupKey patchAction once = Except.ok once ∧
      once.countP (isMatch payload dedupKey) = 1 ∧
      (∀ x ∈ once, isMatch payload dedupKey x = true → x = Value.map payload) ∧
      ((∃ pre m post, xs = pre ++ m :: post ∧ isMatch payload dedupKey m = true ∧
          (∀ x ∈ pre, isMatch payload dedupKey x = false) ∧
          once = pre ++ Value.map payload :: post) ∨
        ((∀ x ∈ xs, isMatch payload dedupKey x = false) ∧
          once = xs ++ [Value.map payload])) := by
  have hself := isMatch_payload payload dedupKey hcmp
  rcases first_match_split (isMatch payload dedupKey) xs with hnone | ⟨pre, m, post, hx, hm, hpre⟩
  · refine ⟨xs ++ [Value.map payload], ?_, ?_, ?_, ?_, Or.inr ⟨hnone, rfl⟩⟩
    · rw [patchSequence_no_match payload dedupKey patchAction hcmp xs hnone]
      simp [ha]
    · rw [patchSequence_first_match payload dedupKey patchAction hk xs (Value.map payload) []
        hnone hself]
      simp [ha]
    · rw [List.countP_append, countP_eq_zero_of_forall _ xs hnone]
      simp [hself]
    · intro x hx hmx
      rcases List.mem_append.mp hx with hx | hx
      · rw [hnone x hx] at hmx
        exact absurd hmx (by simp)
      · exact List.mem_singleton.mp hx
  · have hpre0 := countP_eq_zero_of_forall _ pre hpre
    have hpost0 : post.countP (isMatch payload dedupKey) = 0 := by
      rw [hx, List.countP_append, List.countP_cons, hpre0] at hone
      simp only [hm, if_true] at hone
      omega
    have hpost := forall_of_countP_eq_zero _ post hpost0
    refine ⟨pre ++ Value.map payload :: post, ?_, ?_, ?_, ?_,
      Or.inl ⟨pre, m, post, hx, hm, hpre, rfl⟩⟩
    · rw [hx, patchSequence_first_match payload dedupKey patchAction hk pre m post hpre hm]
      simp [ha]
    · rw [patchSequence_first_match payload dedupKey patchAction hk pre (Value.map payload)
        post hpre hself]
      simp [ha]
    · rw [List.countP_append, List.countP_cons, hpre0, hpost0]
      simp [hself]
    · intro x hx hmx
      rcases List.mem_append.mp hx with hx | hx
      · rw [hpre x hx] at hmx
        exact absurd hmx (by simp)
      · rcases List.mem_cons.mp hx with hx | hx
        · exact hx
        · rw [hpost x hx] at hmx
          exact absurd hmx (by simp)

/-- The dedup-keyed add applied twice to the example sequence, whose first
entry is the only one matching the example payload. -/
theorem patchSequence_add_twice_example :
    ("id" : String) ≠ "" ∧ ("add" : String) ≠ "remove" ∧
    comparable (index Sample.examplePayload "id") = true ∧
    Sample.exampleSequence.countP (isMatch Sample.examplePayload "id") ≤ 1 ∧
    ∃ once,
      PatchStageProvider.patchSequence Sample.examplePayload "id" "add" Sample.exampleSequence
        = Except.ok once ∧
      PatchStageProvider.patchSequence Sample.examplePayload "id" "add" once = Except.ok once ∧
      once.countP (isMatch Sample.examplePayload "id") = 1 ∧
      (∀ x ∈ once, isMatch Sample.examplePayload "id" x = true →
        x = Value.map Sample.examplePayload) ∧
      ((∃ pre m post, Sample.exampleSequence = pre ++ m :: post ∧
          isMatch Sample.examplePayload "id" m = true ∧
          (∀ x ∈ pre, isMatch Sample.examplePayload "id" x = false) ∧
          once = pre ++ Value.map Sample.examplePayload :: post) ∨
        ((∀ x ∈ Sample.exampleSequence, isMatch Sample.examplePayload "id" x = false) ∧
          once = Sample.exampleSequence ++ [Value.map Sample.examplePayload])) :=
  ⟨by decide, by decide, rfl, by decide,
    patchSequence_add_twice Sample.examplePayload "id" "add" Sample.exampleSequence
      (by decide) (by decide) rfl (by decide)⟩

/-- C10 (failing input): the sequence is empty, so that no entry matches, the
dedup key is `id` and the payload is `id: [1]`. The first `"add"` appends the
payload; the second `"add"` of the same payload does not leave the sequence
as the first left it: it panics on comparing the payload's sequence with its
own copy in the sequence. So does `Process`: on the solution whose property
`p` is empty it upserts the solution with the payload appended, and on that
upserted solution it panics and makes no upsert. -/
theorem C10_second_add_panics :
    PatchStageProvider.patchSequence [("id", Value.seq [Value.num 1])] "id" "add" []
      = Except.ok [Value.map [("id", Value.seq [Value.num 1])]] ∧
    PatchStageProvider.patchSequence [("id", Value.seq [Value.num 1])] "id" "add"
        [Value.map [("id", Value.seq [Value.num 1])]]
      = Except.error Fault.panic ∧
    PatchStageProvider.Process (Sample.env [] [Sample.solutionEmptyP]) 3 Sample.addSeqKeyed
      = PatchStageProvider.Run.mk (Except.ok ([], false))
          [("s", "default", Sample.solutionSeqKey.Spec)] ∧
    PatchStageProvider.Process (Sample.env [] [Sample.solutionSeqKey]) 3 Sample.addSeqKeyed
      = PatchStageProvider.Run.mk (Except.error Fault.panic) [] :=
  ⟨rfl, rfl, rfl, rfl⟩

/-! ### The override chain -/

/-- Walking a chain of catalogs that lack the field costs one unit of fuel per
catalog left behind. -/
theorem unwindOverrides_skips (env : Env) (field : String) (ids : List String) :
    ∀ (start last : String) (fuel : Nat), Skips env field start ids last →
      CatalogConfigProvider.unwindOverrides env (ids.length + fuel) start field
        = CatalogConfigProvider.unwindOverrides env fuel last field := by
  induction ids with
  | nil =>
    intro start last fuel h
    simp only [Skips] at h
    simp [h]
  | cons next rest ih =>
    intro start last fuel h
    obtain ⟨catalog, hget, hlook, hparent, hne, hrest⟩ := h
    have hlen : (next :: rest).length + fuel = (rest.length + fuel) + 1 := by
      simp only [List.length_cons]; omega
    rw [hlen, CatalogConfigProvider.unwindOverrides]
    simp only [hget, hlook, hparent]
    rw [if_pos hne]
    exact ih next last fuel hrest

/-- `Read` on a catalog that lacks the field and has a parent is the walk from
that parent. -/
theorem Read_of_parent (env : Env) (fuel : Nat) (object field : String)
    (localcontext : LocalContext) (next : String) (rest : List String) (last : String)
    (h : Skips env field object (next :: rest) last) :
    CatalogConfigProvider.Read env (rest.length + fuel) object field localcontext
      = match CatalogConfigProvider.unwindOverrides env fuel last field with
        | Except.error err => Except.error err
        | Except.ok overrid => Except.ok (Value.str overrid) := by
  obtain ⟨catalog, hget, hlook, hparent, hne, hrest⟩ := h
  unfold CatalogConfigProvider.Read
  simp only [hget, hlook, hparent]
  rw [if_pos hne, unwindOverrides_skips env field rest next last fuel hrest]

/-- The inherited string: when the catalog lacks the field and has a parent,
and the nearest ancestor holding the field (every catalog before it on the
parent chain lacks the field) holds a string, `Read` returns that string as it
is stored, whatever the evaluator does. For `derived` with parent `base` and
`timeout` set to `30` on `base`, the result is `30`. -/
theorem Read_inherited_string (env : Env) (fuel : Nat) (object field : String)
    (localcontext : LocalContext) (next : String) (rest : List String) (holder : String)
    (catalog : CatalogState) (s : String)
    (hchain : Skips env field object (next :: rest) holder)
    (hget : env.GetCatalog holder = Except.ok catalog)
    (hfield : lookup field catalog.Spec.Properties = some (Value.str s))
    (hfuel : (next :: rest).length ≤ fuel) :
    CatalogConfigProvider.Read env fuel object field localcontext = Except.ok (Value.str s) ∧
    CatalogConfigProvider.Read (Sample.envFailingEval Sample.baseDerived) 1 "derived" "timeout"
        LocalContext.nil = Except.ok (Value.str "30") := by
  refine ⟨?_, rfl⟩
  obtain ⟨spare, hspare⟩ : ∃ spare, fuel = rest.length + (spare + 1) := by
    simp only [List.length_cons] at hfuel
    exact ⟨fuel - rest.length - 1, by omega⟩
  rw [hspare, Read_of_parent env (spare + 1) object field localcontext next rest holder hchain,
    CatalogConfigProvider.unwindOverrides]
  simp only [hget, hfield]

/-- The inherited string on the chain `c3 → c2 → c1` with `k` on `c1` only:
`Read` of `k` on `c3` is the template stored on `c1`, though the evaluator
fails on every template. -/
theorem Read_inherited_string_example :
    Skips (Sample.envFailingEval Sample.chainCatalogs) "k" "c3" ["c2", "c1"] "c1" ∧
    CatalogConfigProvider.Read (Sample.envFailingEval Sample.chainCatalogs) 2 "c3" "k"
      LocalContext.nil = Except.ok (Value.str "$config(region, zone)") :=
  have hchain : Skips (Sample.envFailingEval Sample.chainCatalogs) "k" "c3" ["c2", "c1"] "c1" :=
    ⟨CatalogState.mk "c3" (CatalogSpec.mk [] "c2"), rfl, rfl, rfl, by decide,
      CatalogState.mk "c2" (CatalogSpec.mk [("other", Value.num 0)] "c1"), rfl, rfl, rfl,
      by decide, rfl⟩
  ⟨hchain,
    (Read_inherited_string (Sample.envFailingEval Sample.chainCatalogs) 2 "c3" "k"
      LocalContext.nil "c2" ["c1"] "c1"
      (CatalogState.mk "c1" (CatalogSpec.mk [("k", Value.str "$config(region, zone)")] ""))
      "$config(region, zone)" hchain rfl rfl (by decide)).1⟩

/-- C3 (failing input): `derived` lacks every field and has the parent `base`,
which holds a number under `n`, a bool under `b`, a sequence under `q`, a
mapping under `m` and nil under `z`. `Read` of each of these fields on
`derived` does not return the value stored on `base`: it panics on the
conversion of the inherited value to a string. The local lookup of the same
`Read`, on `base` itself, returns the number and the bool. -/
theorem C3_inherited_number_panics :
    CatalogConfigProvider.Read (Sample.env Sample.numberOnBase []) 2 "derived" "k"
      LocalContext.nil = Except.error Fault.panic ∧
    CatalogConfigProvider.Read (Sample.env Sample.shapesOnBase []) 3 "derived" "n"
      LocalContext.nil = Except.error Fault.panic ∧
    CatalogConfigProvider.Read (Sample.env Sample.shapesOnBase []) 3 "derived" "b"
      LocalContext.nil = Except.error Fault.panic ∧
    CatalogConfigProvider.Read (Sample.env Sample.shapesOnBase []) 3 "derived" "q"
      LocalContext.nil = Except.error Fault.panic ∧
    CatalogConfigProvider.Read (Sample.env Sample.shapesOnBase []) 3 "derived" "m"
      LocalContext.nil = Except.error Fault.panic ∧
    CatalogConfigProvider.Read (Sample.env Sample.shapesOnBase []) 3 "derived" "z"
      LocalContext.nil = Except.error Fault.panic ∧
    CatalogConfigProvider.Read (Sample.env Sample.shapesOnBase []) 3 "base" "n"
      LocalContext.nil = Except.ok (Value.num 5) ∧
    CatalogConfigProvider.Read (Sample.env Sample.shapesOnBase []) 3 "base" "b"
      LocalContext.nil = Except.ok (Value.bool true) :=
  ⟨rfl, rfl, rfl, rfl, rfl, rfl, rfl, rfl⟩

/-- C4 (amended): when the chain from the catalog is walked to a catalog
`last` that lacks the field and has no parent, every catalog on the way
lacking the field, `Read` fails with a NotFound error whose message names the
field and `last`: the catalog passed by the caller when it has no parent, and
the last ancestor of the chain otherwise. -/
theorem C4_exhausted_chain_not_found (env : Env) (fuel : Nat) (object field : String)
    (localcontext : LocalContext) (ids : List String) (last : String)
    (catalog : CatalogState)
    (hchain : Skips env field object ids last)
    (hget : env.GetCatalog last = Except.ok catalog)
    (hfield : lookup field catalog.Spec.Properties = none)
    (hroot : catalog.Spec.ParentName = "")
    (hfuel : ids.length ≤ fuel) :
    CatalogConfigProvider.Read env fuel object field localcontext
      = Except.error (Fault.error (GoError.coa
          ("field '" ++ field ++ "' is not found in configuration '" ++ last ++ "'")
          State.NotFound)) := by
  cases ids with
  | nil =>
    simp only [Skips] at hchain
    subst hchain
    unfold CatalogConfigProvider.Read
    simp only [hget, hfield, hroot]
    simp [notFoundMessage]
  | cons next rest =>
    obtain ⟨spare, hspare⟩ : ∃ spare, fuel = rest.length + (spare + 1) := by
      simp only [List.length_cons] at hfuel
      exact ⟨fuel - rest.length - 1, by omega⟩
    rw [hspare, Read_of_parent env (spare + 1) object field localcontext next rest last hchain,
      CatalogConfigProvider.unwindOverrides]
    simp only [hget, hfield, hroot]
    simp [notFoundMessage]

/-- C4 (witness): `derived` has the parent `base`, neither holds `k`, and the
NotFound message names `base`. -/
theorem C4_exhausted_chain_not_found_witness :
    Skips (Sample.env Sample.baseDerived []) "k" "derived" ["base"] "base" ∧
    CatalogConfigProvider.Read (Sample.env Sample.baseDerived []) 1 "derived" "k"
        LocalContext.nil
      = Except.error (Fault.error (GoError.coa
          ("field '" ++ "k" ++ "' is not found in configuration '" ++ "base" ++ "'")
          State.NotFound)) :=
  have hchain : Skips (Sample.env Sample.baseDerived []) "k" "derived" ["base"] "base" :=
    ⟨CatalogState.mk "derived" (CatalogSpec.mk [] "base"), rfl, rfl, rfl, by decide, rfl⟩
  ⟨hchain,
    C4_exhausted_chain_not_found (Sample.env Sample.baseDerived []) 1 "derived" "k"
      LocalContext.nil ["base"] "base"
      (CatalogState.mk "base" (CatalogSpec.mk [("timeout", Value.str "30")] ""))
      hchain rfl rfl rfl (by decide)⟩

/-- C4 (counterexample): the caller reads `k` on `derived`, whose parent
`base` ends the chain; the NotFound message names `base`, not `derived`. -/
theorem C4_message_names_last_ancestor :
    CatalogConfigProvider.Read (Sample.env Sample.baseDerived []) 2 "derived" "k"
        LocalContext.nil
      = Except.error (Fault.error (GoError.coa
          "field 'k' is not found in configuration 'base'" State.NotFound)) ∧
    CatalogConfigProvider.Read (Sample.env Sample.baseDerived []) 2 "derived" "k"
        LocalContext.nil
      ≠ Except.error (Fault.error (GoError.coa
          "field 'k' is not found in configuration 'derived'" State.NotFound)) := by
  have h : CatalogConfigProvider.Read (Sample.env Sample.baseDerived []) 2 "derived" "k"
        LocalContext.nil
      = Except.error (Fault.error (GoError.coa
          "field 'k' is not found in configuration 'base'" State.NotFound)) := by
    rfl
  refine ⟨h, ?_⟩
  rw [h]
  intro hcontra
  injection hcontra with hcontra
  injection hcontra with hcontra
  injection hcontra with hmsg
  exact absurd hmsg (by decide)

/-! ### The object merge -/

theorem lookup_assign_self (k : String) (v : Value) (m : Props) :
    lookup k (assign k v m) = some v := by
  induction m with
  | nil => simp [assign, lookup]
  | cons kv rest ih =>
    obtain ⟨k1, v1⟩ := kv
    by_cases h : k1 = k
    · simp [assign, lookup, h]
    · simp [assign, lookup, h, ih]

theorem lookup_assign_ne (k k1 : String) (v : Value) (m : Props) (h : k1 ≠ k) :
    lookup k (assign k1 v m) = lookup k m := by
  induction m with
  | nil => simp [assign, lookup, h]
  | cons kv rest ih =>
    obtain ⟨k2, v2⟩ := kv
    by_cases h2 : k2 = k1
    · subst h2
      simp [assign, lookup, h]
    · by_cases h3 : k2 = k
      · subst h3
        simp [assign, lookup, h2]
      · simp [assign, lookup, h2, h3, ih]

/-- The merge of a traced map never touches a key that the result already has. -/
theorem lookup_mergeMissing_of_some (k : String) (v : Value) (tmap : Props) :
    ∀ ret : Props, lookup k ret = some v →
      lookup k (CatalogConfigProvider.mergeMissing ret tmap) = some v := by
  induction tmap with
  | nil => intro ret h; simpa [CatalogConfigProvider.mergeMissing] using h
  | cons kv rest ih =>
    intro ret h
    obtain ⟨tk, tv⟩ := kv
    unfold CatalogConfigProvider.mergeMissing
    cases hl : lookup tk ret with
    | some w => exact ih ret h
    | none =>
      apply ih
      have hne : tk ≠ k := by
        intro heq
        rw [heq, h] at hl
        exact absurd hl (by simp)
      rw [lookup_assign_ne k tk tv ret hne]
      exact h

/-- Once the result maps `k` to `v`, visiting properties with other keys
leaves it so. -/
theorem readObjectLoop_keeps (env : Env) (fuel : Nat) (localcontext : LocalContext)
    (range : Props → Props) (k : String) (v : Value) (ps : Props) :
    ∀ ret : Props,
      (∀ kv ∈ ps, ∃ tv, CatalogConfigProvider.traceValue env localcontext fuel kv.2
        = Except.ok tv) →
      (∀ kv ∈ ps, kv.1 ≠ k) → lookup k ret = some v →
      ∃ out, CatalogConfigProvider.readObjectLoop env fuel localcontext range ps ret
          = Except.ok out ∧ lookup k out = some v := by
  induction ps with
  | nil =>
    intro ret _ _ h
    exact ⟨ret, by simp [CatalogConfigProvider.readObjectLoop], h⟩
  | cons kv rest ih =>
    intro ret hall hkeys h
    obtain ⟨k1, v1⟩ := kv
    obtain ⟨tv, htv⟩ := hall (k1, v1) (List.mem_cons_self _ _)
    have hall2 : ∀ kv ∈ rest, ∃ tv, CatalogConfigProvider.traceValue env localcontext fuel kv.2
        = Except.ok tv := fun kv hkv => hall kv (List.mem_cons_of_mem _ hkv)
    have hkeys2 : ∀ kv ∈ rest, kv.1 ≠ k := fun kv hkv => hkeys kv (List.mem_cons_of_mem _ hkv)
    have hne : k1 ≠ k := hkeys (k1, v1) (List.mem_cons_self _ _)
    simp only at htv
    unfold CatalogConfigProvider.readObjectLoop
    rw [htv]
    cases tv with
    | map tmap => exact ih _ hall2 hkeys2 (lookup_mergeMissing_of_some k v _ ret h)
    | _ => exact ih _ hall2 hkeys2 (by rw [lookup_assign_ne k k1 _ ret hne]; exact h)

/-- Visiting a list of properties with distinct keys that holds `k` with a raw
value tracing to the non-mapping `v` ends with `k` mapped to `v`. -/
theorem readObjectLoop_top_level (env : Env) (fuel : Nat) (localcontext : LocalContext)
    (range : Props → Props) (k : String) (raw v : Value)
    (htrace : CatalogConfigProvider.traceValue env localcontext fuel raw = Except.ok v)
    (hv : ∀ m, v ≠ Value.map m) (ps : Props) :
    ∀ ret : Props,
      (∀ kv ∈ ps, ∃ tv, CatalogConfigProvider.traceValue env localcontext fuel kv.2
        = Except.ok tv) →
      (ps.map Prod.fst).Nodup → (k, raw) ∈ ps →
      ∃ out, CatalogConfigProvider.readObjectLoop env fuel localcontext range ps ret
          = Except.ok out ∧ lookup k out = some v := by
  induction ps with
  | nil => intro ret _ _ hmem; exact absurd hmem (by simp)
  | cons kv rest ih =>
    intro ret hall hnodup hmem
    obtain ⟨k1, v1⟩ := kv
    have hall2 : ∀ kv ∈ rest, ∃ tv, CatalogConfigProvider.traceValue env localcontext fuel kv.2
        = Except.ok tv := fun kv hkv => hall kv (List.mem_cons_of_mem _ hkv)
    simp only [List.map_cons, List.nodup_cons] at hnodup
    obtain ⟨hfresh, hnodup2⟩ := hnodup
    rcases List.mem_cons.mp hmem with heq | hmem2
    · have hk : k1 = k := (congrArg Prod.fst heq).symm
      have hr : v1 = raw := (congrArg Prod.snd heq).symm
      subst hk; subst hr
      have hkeys : ∀ kv ∈ rest, kv.1 ≠ k1 := by
        intro kv hkv heq2
        exact hfresh (heq2 ▸ List.mem_map_of_mem Prod.fst hkv)
      unfold CatalogConfigProvider.readObjectLoop
      rw [htrace]
      cases v with
      | map tmap => exact absurd rfl (hv tmap)
      | _ =>
        exact readObjectLoop_keeps env fuel localcontext range k1 _ rest _ hall2 hkeys
          (lookup_assign_self k1 _ ret)
    · obtain ⟨tv, htv⟩ := hall (k1, v1) (List.mem_cons_self _ _)
      simp only at htv
      unfold CatalogConfigProvider.readObjectLoop
      rw [htv]
      cases tv with
      | map tmap => exact ih _ hall2 hnodup2 hmem2
      | _ => exact ih _ hall2 hnodup2 hmem2

/-- C5: if the properties of a catalog (a Go map, so with distinct keys) all
trace successfully and property `k` traces to a value `v` that is not a
mapping, then `ReadObject` succeeds and its result maps `k` to `v`, for every
order `range` in which the properties and the entries of traced mappings are
visited, also when another property traces to a mapping that has key `k`. On
the catalog whose property `x` traces to the mapping `a: 1` and whose property
`a` is 2, the result maps `a` to 2 in both visiting orders. -/
theorem C5_top_level_wins (env : Env) (fuel : Nat) (object : String)
    (localcontext : LocalContext) (range : Props → Props) (catalog : CatalogState)
    (k : String) (raw v : Value)
    (hget : env.GetCatalog object = Except.ok catalog)
    (hrange : ∀ m : Props, (range m).Perm m)
    (hkeys : (catalog.Spec.Properties.map Prod.fst).Nodup)
    (hk : (k, raw) ∈ catalog.Spec.Properties)
    (htrace : CatalogConfigProvider.traceValue env localcontext fuel raw = Except.ok v)
    (hv : ∀ m, v ≠ Value.map m)
    (hall : ∀ kv ∈ catalog.Spec.Properties,
      ∃ tv, CatalogConfigProvider.traceValue env localcontext fuel kv.2 = Except.ok tv) :
    (∃ out, CatalogConfigProvider.ReadObject env fuel object localcontext range
        = Except.ok out ∧ lookup k out = some v) ∧
    CatalogConfigProvider.ReadObject (Sample.envShared Sample.appCatalog) 3 "app"
        LocalContext.nil (fun m => m) = Except.ok [("a", Value.num 2)] ∧
    CatalogConfigProvider.ReadObject (Sample.envShared Sample.appCatalog) 3 "app"
        LocalContext.nil List.reverse = Except.ok [("a", Value.num 2)] := by
  refine ⟨?_, rfl, rfl⟩
  have hperm := hrange catalog.Spec.Properties
  unfold CatalogConfigProvider.ReadObject
  rw [hget]
  apply readObjectLoop_top_level env fuel localcontext range k raw v htrace hv
  · intro kv hkv
    exact hall kv (hperm.mem_iff.mp hkv)
  · exact (List.Perm.nodup_iff (hperm.map Prod.fst)).mpr hkeys
  · exact hperm.mem_iff.mpr hk

/-- C5 (witness): the theorem at the catalog `app`, visited in reverse order
(`a` before `x`). -/
theorem C5_top_level_wins_witness :
    (∀ m : Props, (List.reverse m).Perm m) ∧
    (([("x", Value.str "$config(shared)"), ("a", Value.num 2)] : Props).map Prod.fst).Nodup ∧
    (∃ out, CatalogConfigProvider.ReadObject (Sample.envShared Sample.appCatalog) 3 "app"
        LocalContext.nil List.reverse = Except.ok out ∧ lookup "a" out = some (Value.num 2)) :=
  ⟨fun m => List.reverse_perm m, by decide,
    (C5_top_level_wins (Sample.envShared Sample.appCatalog) 3 "app" LocalContext.nil
      List.reverse
      (CatalogState.mk "app" (CatalogSpec.mk
        [("x", Value.str "$config(shared)"), ("a", Value.num 2)] ""))
      "a" (Value.num 2) (Value.num 2) rfl (fun m => List.reverse_perm m) (by decide)
      (List.mem_cons_of_mem _ (List.mem_cons_self _ _)) rfl
      (fun m h => Value.noConfusion h)
      (by
        intro kv hkv
        rcases List.mem_cons.mp hkv with h | hkv
        · exact ⟨Value.map [("a", Value.num 1)], by rw [h]; rfl⟩
        · rcases List.mem_cons.mp hkv with h | hkv
          · exact ⟨Value.num 2, by rw [h]; rfl⟩
          · exact absurd hkv (List.not_mem_nil _))).1⟩

/-! ### Process on a solution -/

/-- Once the payload is resolved and traced and the solution is fetched,
`Process` is the patch of the solution followed, when `udpated` is set, by
the persistence step. -/
theorem Process_solution (env : Env) (fuel : Nat) (inputs properties payload : Props)
    (solution : SolutionState)
    (htype : env.ReadInputString inputs "objectType" = "solution")
    (hres : PatchStageProvider.resolvePayload env (env.ReadInputString inputs "patchSource")
      (index inputs "patchContent") (env.ReadInputString inputs "component")
      = Except.ok properties)
    (htr : PatchStageProvider.tracePayload env fuel (index inputs "context") properties
      = Except.ok payload)
    (hsol : env.GetSolution (env.ReadInputString inputs "objectName")
      (PatchStageProvider.scopeOf env inputs) = Except.ok solution) :
    PatchStageProvider.Process env fuel inputs
      = match PatchStageProvider.patchSolution payload (env.ReadInputString inputs "component")
          (env.ReadInputString inputs "property") (env.ReadInputString inputs "subKey")
          (env.ReadInputString inputs "dedupKey") (PatchStageProvider.actionOf env inputs)
          solution with
        | Except.error e => PatchStageProvider.Run.mk (Except.error e) []
        | Except.ok (spec, udpated) =>
          if udpated then
            PatchStageProvider.persist env (env.ReadInputString inputs "objectName")
              (PatchStageProvider.scopeOf env inputs) spec
          else PatchStageProvider.Run.mk (Except.ok ([], false)) [] := by
  unfold PatchStageProvider.Process
  simp only [hres, htr, htype, hsol, if_true]

theorem replaceComponent_first (P : ComponentSpec) (patchAction : String)
    (pre : List ComponentSpec) (c : ComponentSpec) (post : List ComponentSpec)
    (hc : c.Name = P.Name) (hpre : ∀ x ∈ pre, x.Name ≠ P.Name) :
    PatchStageProvider.replaceComponent P patchAction (pre ++ c :: post)
      = some (if patchAction = "remove" then pre ++ post else pre ++ P :: post) := by
  induction pre with
  | nil =>
    by_cases ha : patchAction = "remove" <;>
      simp [PatchStageProvider.replaceComponent, hc, ha]
  | cons x rest ih =>
    have hx : x.Name ≠ P.Name := hpre x (List.mem_cons_self _ _)
    rw [List.cons_append, PatchStageProvider.replaceComponent, if_neg hx,
      ih (fun y hy => hpre y (List.mem_cons_of_mem _ hy))]
    by_cases ha : patchAction = "remove" <;> simp [ha]

theorem replaceComponent_absent (P : ComponentSpec) (patchAction : String)
    (components : List ComponentSpec) (h : ∀ x ∈ components, x.Name ≠ P.Name) :
    PatchStageProvider.replaceComponent P patchAction components = none := by
  induction components with
  | nil => rfl
  | cons x rest ih =>
    have hx : x.Name ≠ P.Name := h x (List.mem_cons_self _ _)
    rw [PatchStageProvider.replaceComponent, if_neg hx,
      ih (fun y hy => h y (List.mem_cons_of_mem _ hy))]

/-- C6: on a whole-component patch (component name empty) whose traced
payload holds the component `P` under `spec`, `Process` persists the
solution with the first component named like `P` deleted (action `"remove"`)
or replaced by `P` (other actions), the components before and after it
unchanged; when no component is named like `P` and the action is not
`"remove"` it persists the solution with `P` appended; the persistence step is
one upsert of that solution spec. -/
theorem C6_whole_component_patch (env : Env) (fuel : Nat)
    (inputs properties payload : Props) (solution : SolutionState) (P : ComponentSpec)
    (htype : env.ReadInputString inputs "objectType" = "solution")
    (hcomp : env.ReadInputString inputs "component" = "")
    (hres : PatchStageProvider.resolvePayload env (env.ReadInputString inputs "patchSource")
      (index inputs "patchContent") (env.ReadInputString inputs "component")
      = Except.ok properties)
    (htr : PatchStageProvider.tracePayload env fuel (index inputs "context") properties
      = Except.ok payload)
    (hspec : index payload "spec" = P.toValue)
    (hsol : env.GetSolution (env.ReadInputString inputs "objectName")
      (PatchStageProvider.scopeOf env inputs) = Except.ok solution) :
    (∀ pre c post, solution.Spec.Components = pre ++ c :: post → c.Name = P.Name →
        (∀ x ∈ pre, x.Name ≠ P.Name) →
        PatchStageProvider.Process env fuel inputs
          = PatchStageProvider.persist env (env.ReadInputString inputs "objectName")
              (PatchStageProvider.scopeOf env inputs)
              (SolutionSpec.mk (if PatchStageProvider.actionOf env inputs = "remove"
                then pre ++ post else pre ++ P :: post))) ∧
    ((∀ x ∈ solution.Spec.Components, x.Name ≠ P.Name) →
        PatchStageProvider.actionOf env inputs ≠ "remove" →
        PatchStageProvider.Process env fuel inputs
          = PatchStageProvider.persist env (env.ReadInputString inputs "objectName")
              (PatchStageProvider.scopeOf env inputs)
              (SolutionSpec.mk (solution.Spec.Components ++ [P]))) ∧
    (∀ spec, (PatchStageProvider.persist env (env.ReadInputString inputs "objectName")
        (PatchStageProvider.scopeOf env inputs) spec).upserts
      = [(env.ReadInputString inputs "objectName", PatchStageProvider.scopeOf env inputs,
          spec)]) := by
  have hP : index payload "spec" = Value.component P.Name P.Properties := hspec
  refine ⟨?_, ?_, ?_⟩
  · intro pre c post hsplit hc hpre
    rw [Process_solution env fuel inputs properties payload solution htype hres htr hsol]
    simp only [PatchStageProvider.patchSolution, hcomp, if_true,
      PatchStageProvider.patchWholeComponent, hP, hsplit]
    rw [replaceComponent_first (ComponentSpec.mk P.Name P.Properties) _ pre c post hc hpre]
    rfl
  · intro hnone ha
    rw [Process_solution env fuel inputs properties payload solution htype hres htr hsol]
    simp only [PatchStageProvider.patchSolution, hcomp, if_true,
      PatchStageProvider.patchWholeComponent, hP]
    rw [replaceComponent_absent (ComponentSpec.mk P.Name P.Properties) _ _ hnone]
    simp [ha]
  · intro spec
    unfold PatchStageProvider.persist
    cases env.UpsertSolution (env.ReadInputString inputs "objectName")
      (PatchStageProvider.scopeOf env inputs) spec <;> rfl

/-- C7: on a whole-component patch with action `"remove"` whose traced
payload holds the component `P` under `spec`, when no component of the
fetched solution is named like `P`, `Process` returns success (empty
outputs, false) and calls no upsert. -/
theorem C7_remove_absent_component (env : Env) (fuel : Nat)
    (inputs properties payload : Props) (solution : SolutionState) (P : ComponentSpec)
    (htype : env.ReadInputString inputs "objectType" = "solution")
    (hcomp : env.ReadInputString inputs "component" = "")
    (haction : PatchStageProvider.actionOf env inputs = "remove")
    (hres : PatchStageProvider.resolvePayload env (env.ReadInputString inputs "patchSource")
      (index inputs "patchContent") (env.ReadInputString inputs "component")
      = Except.ok properties)
    (htr : PatchStageProvider.tracePayload env fuel (index inputs "context") properties
      = Except.ok payload)
    (hspec : index payload "spec" = P.toValue)
    (hsol : env.GetSolution (env.ReadInputString inputs "objectName")
      (PatchStageProvider.scopeOf env inputs) = Except.ok solution)
    (hnone : ∀ x ∈ solution.Spec.Components, x.Name ≠ P.Name) :
    PatchStageProvider.Process env fuel inputs
      = PatchStageProvider.Run.mk (Except.ok ([], false)) [] := by
  have hP : index payload "spec" = Value.component P.Name P.Properties := hspec
  rw [Process_solution env fuel inputs properties payload solution htype hres htr hsol]
  simp only [PatchStageProvider.patchSolution, hcomp, if_true,
    PatchStageProvider.patchWholeComponent, hP]
  rw [replaceComponent_absent (ComponentSpec.mk P.Name P.Properties) _ _ hnone]
  simp [haction]

/-- C6 (witness): adding the inline component `c` to the solution `s`, whose
only component is named `c`, upserts `s` with that component replaced. -/
theorem C6_whole_component_patch_witness :
    Sample.readInputString Sample.replaceComponentC "objectType" = "solution" ∧
    Sample.readInputString Sample.replaceComponentC "component" = "" ∧
    PatchStageProvider.Process (Sample.env [] [Sample.solutionS]) 3 Sample.replaceComponentC
      = PatchStageProvider.Run.mk (Except.ok ([], false))
          [("s", "default", SolutionSpec.mk [ComponentSpec.mk "c" []])] :=
  ⟨rfl, rfl,
    (C6_whole_component_patch (Sample.env [] [Sample.solutionS]) 3 Sample.replaceComponentC
      [("spec", Value.component "c" [])] [("spec", Value.component "c" [])]
      Sample.solutionS (ComponentSpec.mk "c" []) rfl rfl rfl rfl rfl rfl).1 []
      (ComponentSpec.mk "c" [("p", Value.seq [Value.map [("id", Value.str "a")]])]) []
      rfl rfl (fun x hx => absurd hx (List.not_mem_nil x))⟩

/-- C7 (witness): removing the inline component `ghost` from the solution
`s`, which has no component of that name, succeeds without an upsert. -/
theorem C7_remove_absent_component_witness :
    PatchStageProvider.actionOf (Sample.env [] [Sample.solutionS])
      Sample.removeGhostComponent = "remove" ∧
    (∀ x ∈ Sample.solutionS.Spec.Components, x.Name ≠ "ghost") ∧
    PatchStageProvider.Process (Sample.env [] [Sample.solutionS]) 3
        Sample.removeGhostComponent
      = PatchStageProvider.Run.mk (Except.ok ([], false)) [] :=
  have hnone : ∀ x ∈ Sample.solutionS.Spec.Components, x.Name ≠ "ghost" := by
    intro x hx
    rw [List.mem_singleton.mp hx]
    decide
  ⟨rfl, hnone,
    C7_remove_absent_component (Sample.env [] [Sample.solutionS]) 3
      Sample.removeGhostComponent [("spec", Value.component "ghost" [])]
      [("spec", Value.component "ghost" [])] Sample.solutionS (ComponentSpec.mk "ghost" [])
      rfl rfl rfl rfl rfl rfl rfl hnone⟩

/-! ### No write before every step has succeeded -/

theorem persist_upserts (env : Env) (objectName objectScope : String) (spec : SolutionSpec) :
    (PatchStageProvider.persist env objectName objectScope spec).upserts
      = [(objectName, objectScope, spec)] := by
  unfold PatchStageProvider.persist
  cases env.UpsertSolution objectName objectScope spec <;> rfl

/-- C8: `Process` calls the upsert at most once, and an upsert it makes is
made after payload resolution, payload tracing, the solution lookup and the
patch of the solution (addressing and shape checks) have all succeeded; a
failure of any of these four steps is the result of `Process`, with no
upsert made. -/
theorem C8_no_write_on_failure (env : Env) (fuel : Nat) (inputs : Props) :
    (PatchStageProvider.Process env fuel inputs).upserts.length ≤ 1 ∧
    (∀ call ∈ (PatchStageProvider.Process env fuel inputs).upserts,
      ∃ properties payload solution spec,
        PatchStageProvider.resolvePayload env (env.ReadInputString inputs "patchSource")
          (index inputs "patchContent") (env.ReadInputString inputs "component")
          = Except.ok properties ∧
        PatchStageProvider.tracePayload env fuel (index inputs "context") properties
          = Except.ok payload ∧
        env.GetSolution (env.ReadInputString inputs "objectName")
          (PatchStageProvider.scopeOf env inputs) = Except.ok solution ∧
        PatchStageProvider.patchSolution payload (env.ReadInputString inputs "component")
          (env.ReadInputString inputs "property") (env.ReadInputString inputs "subKey")
          (env.ReadInputString inputs "dedupKey") (PatchStageProvider.actionOf env inputs)
          solution = Except.ok (spec, true) ∧
        call = (env.ReadInputString inputs "objectName",
          PatchStageProvider.scopeOf env inputs, spec)) ∧
    (∀ e, PatchStageProvider.resolvePayload env (env.ReadInputString inputs "patchSource")
        (index inputs "patchContent") (env.ReadInputString inputs "component")
        = Except.error e →
      PatchStageProvider.Process env fuel inputs
        = PatchStageProvider.Run.mk (Except.error e) []) ∧
    (∀ properties e,
      PatchStageProvider.resolvePayload env (env.ReadInputString inputs "patchSource")
        (index inputs "patchContent") (env.ReadInputString inputs "component")
        = Except.ok properties →
      PatchStageProvider.tracePayload env fuel (index inputs "context") properties
        = Except.error e →
      PatchStageProvider.Process env fuel inputs
        = PatchStageProvider.Run.mk (Except.error e) []) ∧
    (∀ properties payload err,
      PatchStageProvider.resolvePayload env (env.ReadInputString inputs "patchSource")
        (index inputs "patchContent") (env.ReadInputString inputs "component")
        = Except.ok properties →
      PatchStageProvider.tracePayload env fuel (index inputs "context") properties
        = Except.ok payload →
      env.ReadInputString inputs "objectType" = "solution" →
      env.GetSolution (env.ReadInputString inputs "objectName")
        (PatchStageProvider.scopeOf env inputs) = Except.error err →
      PatchStageProvider.Process env fuel inputs
        = PatchStageProvider.Run.mk (Except.error (Fault.error err)) []) ∧
    (∀ properties payload solution e,
      PatchStageProvider.resolvePayload env (env.ReadInputString inputs "patchSource")
        (index inputs "patchContent") (env.ReadInputString inputs "component")
        = Except.ok properties →
      PatchStageProvider.tracePayload env fuel (index inputs "context") properties
        = Except.ok payload →
      env.ReadInputString inputs "objectType" = "solution" →
      env.GetSolution (env.ReadInputString inputs "objectName")
        (PatchStageProvider.scopeOf env inputs) = Except.ok solution →
      PatchStageProvider.patchSolution payload (env.ReadInputString inputs "component")
        (env.ReadInputString inputs "property") (env.ReadInputString inputs "subKey")
        (env.ReadInputString inputs "dedupKey") (PatchStageProvider.actionOf env inputs)
        solution = Except.error e →
      PatchStageProvider.Process env fuel inputs
        = PatchStageProvider.Run.mk (Except.error e) []) := by
  refine ⟨?_, ?_, ?_, ?_, ?_, ?_⟩
  · unfold PatchStageProvider.Process
    simp only
    split
    · simp
    · split
      · simp
      · split
        · split
          · simp
          · split
            · simp
            · split
              · simp [persist_upserts]
              · simp
        · simp
  · intro call hcall
    unfold PatchStageProvider.Process at hcall
    simp only at hcall
    split at hcall
    · simp at hcall
    · rename_i properties hres
      split at hcall
      · simp at hcall
      · rename_i payload htr
        split at hcall
        · split at hcall
          · simp at hcall
          · rename_i solution hsol
            split at hcall
            · simp at hcall
            · rename_i spec udpated hpatch
              split at hcall
              · rename_i hupd
                rw [persist_upserts] at hcall
                refine ⟨properties, payload, solution, spec, hres, htr, hsol, ?_,
                  List.mem_singleton.mp hcall⟩
                rw [hpatch, hupd]
              · simp at hcall
        · simp at hcall
  · intro e hres
    unfold PatchStageProvider.Process
    simp only [hres]
  · intro properties e hres htr
    unfold PatchStageProvider.Process
    simp only [hres, htr]
  · intro properties payload err hres htr htype hsol
    unfold PatchStageProvider.Process
    simp only [hres, htr, htype, hsol, if_true]
  · intro properties payload solution e hres htr htype hsol hpatch
    rw [Process_solution env fuel inputs properties payload solution htype hres htr hsol,
      hpatch]

/-! ### Shape checks of a property-level patch -/

theorem patchComponents_first (payload : Props)
    (componentName propertyName subKey dedupKey patchAction : String)
    (pre : List ComponentSpec) (c : ComponentSpec) (post : List ComponentSpec)
    (hc : c.Name = componentName) (hpre : ∀ x ∈ pre, x.Name ≠ componentName) :
    PatchStageProvider.patchComponents payload componentName propertyName subKey dedupKey
        patchAction (pre ++ c :: post)
      = match PatchStageProvider.patchProperty payload propertyName subKey dedupKey
          patchAction c with
        | Except.error e => Except.error e
        | Except.ok (c2, udpated) => Except.ok (pre ++ c2 :: post, udpated) := by
  induction pre with
  | nil =>
    rw [List.nil_append, PatchStageProvider.patchComponents, if_pos hc]
    rfl
  | cons x rest ih =>
    have hx : x.Name ≠ componentName := hpre x (List.mem_cons_self _ _)
    rw [List.cons_append, PatchStageProvider.patchComponents, if_neg hx,
      ih (fun y hy => hpre y (List.mem_cons_of_mem _ hy))]
    cases PatchStageProvider.patchProperty payload propertyName subKey dedupKey patchAction c with
    | error e => rfl
    | ok r => rfl

/-- A failure of the patch of the addressed property is the result of
`Process`, which then makes no upsert. -/
theorem Process_property_failure (env : Env) (fuel : Nat) (inputs properties payload : Props)
    (solution : SolutionState) (pre : List ComponentSpec) (c : ComponentSpec)
    (post : List ComponentSpec) (e : Fault)
    (htype : env.ReadInputString inputs "objectType" = "solution")
    (hres : PatchStageProvider.resolvePayload env (env.ReadInputString inputs "patchSource")
      (index inputs "patchContent") (env.ReadInputString inputs "component")
      = Except.ok properties)
    (htr : PatchStageProvider.tracePayload env fuel (index inputs "context") properties
      = Except.ok payload)
    (hsol : env.GetSolution (env.ReadInputString inputs "objectName")
      (PatchStageProvider.scopeOf env inputs) = Except.ok solution)
    (hcomp : env.ReadInputString inputs "component" ≠ "")
    (hsplit : solution.Spec.Components = pre ++ c :: post)
    (hc : c.Name = env.ReadInputString inputs "component")
    (hpre : ∀ x ∈ pre, x.Name ≠ env.ReadInputString inputs "component")
    (hfail : PatchStageProvider.patchProperty payload (env.ReadInputString inputs "property")
      (env.ReadInputString inputs "subKey") (env.ReadInputString inputs "dedupKey")
      (PatchStageProvider.actionOf env inputs) c = Except.error e) :
    PatchStageProvider.Process env fuel inputs
      = PatchStageProvider.Run.mk (Except.error e) [] := by
  rw [Process_solution env fuel inputs properties payload solution htype hres htr hsol]
  simp only [PatchStageProvider.patchSolution, if_neg hcomp, hsplit]
  rw [patchComponents_first payload _ _ _ _ _ pre c post hc hpre, hfail]

/-- C9: on a property-level patch whose payload resolved and traced, on a
fetched solution whose first component named `component` holds the value `p`
under `property`: with a sub-key, `Process` fails with BadConfig and makes no
upsert when `p` is not a mapping, when the mapping has no entry under the
sub-key, and when that entry is not a sequence; without a sub-key it does so
when `p` is not a sequence. -/
theorem C9_shape_violation_bad_config (env : Env) (fuel : Nat)
    (inputs properties payload : Props) (solution : SolutionState)
    (pre : List ComponentSpec) (c : ComponentSpec) (post : List ComponentSpec) (p : Value)
    (htype : env.ReadInputString inputs "objectType" = "solution")
    (hres : PatchStageProvider.resolvePayload env (env.ReadInputString inputs "patchSource")
      (index inputs "patchContent") (env.ReadInputString inputs "component")
      = Except.ok properties)
    (htr : PatchStageProvider.tracePayload env fuel (index inputs "context") properties
      = Except.ok payload)
    (hsol : env.GetSolution (env.ReadInputString inputs "objectName")
      (PatchStageProvider.scopeOf env inputs) = Except.ok solution)
    (hcomp : env.ReadInputString inputs "component" ≠ "")
    (hsplit : solution.Spec.Components = pre ++ c :: post)
    (hc : c.Name = env.ReadInputString inputs "component")
    (hpre : ∀ x ∈ pre, x.Name ≠ env.ReadInputString inputs "component")
    (hprop : lookup (env.ReadInputString inputs "property") c.Properties = some p) :
    (env.ReadInputString inputs "subKey" ≠ "" → (∀ m, p ≠ Value.map m) →
      PatchStageProvider.Process env fuel inputs
        = PatchStageProvider.Run.mk (Except.error (Fault.error
            (GoError.coa "subKey is not valid" State.BadConfig))) []) ∧
    (env.ReadInputString inputs "subKey" ≠ "" →
      ∀ m, p = Value.map m → lookup (env.ReadInputString inputs "subKey") m = none →
      PatchStageProvider.Process env fuel inputs
        = PatchStageProvider.Run.mk (Except.error (Fault.error
            (GoError.coa "subKey is not valid" State.BadConfig))) []) ∧
    (env.ReadInputString inputs "subKey" ≠ "" →
      ∀ m v, p = Value.map m → lookup (env.ReadInputString inputs "subKey") m = some v →
      (∀ xs, v ≠ Value.seq xs) →
      PatchStageProvider.Process env fuel inputs
        = PatchStageProvider.Run.mk (Except.error (Fault.error
            (GoError.coa "target properties is not valid" State.BadConfig))) []) ∧
    (env.ReadInputString inputs "subKey" = "" → (∀ xs, p ≠ Value.seq xs) →
      PatchStageProvider.Process env fuel inputs
        = PatchStageProvider.Run.mk (Except.error (Fault.error
            (GoError.coa "target properties is not valid" State.BadConfig))) []) := by
  have key := Process_property_failure env fuel inputs properties payload solution pre c post
  refine ⟨?_, ?_, ?_, ?_⟩
  · intro hsub hp
    apply key _ htype hres htr hsol hcomp hsplit hc hpre
    unfold PatchStageProvider.patchProperty
    rw [hprop]
    simp only [if_pos hsub]
    cases p with
    | map m => exact absurd rfl (hp m)
    | _ => rfl
  · intro hsub m hp hlook
    apply key _ htype hres htr hsol hcomp hsplit hc hpre
    unfold PatchStageProvider.patchProperty
    rw [hprop, hp]
    simp only [if_pos hsub, hlook]
    rfl
  · intro hsub m v hp hlook hv
    apply key _ htype hres htr hsol hcomp hsplit hc hpre
    unfold PatchStageProvider.patchProperty
    rw [hprop, hp]
    simp only [if_pos hsub, hlook]
    cases v with
    | seq xs => exact absurd rfl (hv xs)
    | _ => rfl
  · intro hsub hp
    apply key _ htype hres htr hsol hcomp hsplit hc hpre
    unfold PatchStageProvider.patchProperty
    rw [hprop]
    simp only [hsub, ne_eq, not_true_eq_false, if_false]
    cases p with
    | seq xs => exact absurd rfl (hp xs)
    | _ => rfl

/-- C9 (witness): on the solution `s`, whose component `c` holds a sequence
under `p`, a request with the sub-key `rules` fails with BadConfig and makes
no upsert. -/
theorem C9_shape_violation_bad_config_witness :
    Sample.readInputString Sample.subKeyOnSequence "component" ≠ "" ∧
    Sample.readInputString Sample.subKeyOnSequence "subKey" ≠ "" ∧
    lookup (Sample.readInputString Sample.subKeyOnSequence "property")
        [("p", Value.seq [Value.map [("id", Value.str "a")]])]
      = some (Value.seq [Value.map [("id", Value.str "a")]]) ∧
    PatchStageProvider.Process (Sample.env [] [Sample.solutionS]) 3 Sample.subKeyOnSequence
      = PatchStageProvider.Run.mk (Except.error (Fault.error
          (GoError.coa "subKey is not valid" State.BadConfig))) [] :=
  ⟨by decide, by decide, rfl,
    (C9_shape_violation_bad_config (Sample.env [] [Sample.solutionS]) 3
      Sample.subKeyOnSequence [("id", Value.str "a")] [("id", Value.str "a")]
      Sample.solutionS []
      (ComponentSpec.mk "c" [("p", Value.seq [Value.map [("id", Value.str "a")]])]) []
      (Value.seq [Value.map [("id", Value.str "a")]])
      rfl rfl rfl rfl (by decide) rfl rfl (fun x hx => absurd hx (List.not_mem_nil x)) rfl).1
      (by decide) (fun m h => Value.noConfusion h)⟩

/-! ### The patch of a sequence without a dedup key -/

/-- C11: with an empty dedup key, every action other than `"remove"` returns
the sequence with the payload appended at the end, so that applying it twice
appends two entries and the length grows by 2, and the action `"remove"`
returns the sequence as it is, for every sequence and payload. -/
theorem C11_empty_dedup_key_appends (payload : Props) (patchAction : String)
    (xs : List Value) :
    (patchAction ≠ "remove" →
      PatchStageProvider.patchSequence payload "" patchAction xs
        = Except.ok (xs ++ [Value.map payload]) ∧
      PatchStageProvider.patchSequence payload "" patchAction (xs ++ [Value.map payload])
        = Except.ok (xs ++ [Value.map payload] ++ [Value.map payload]) ∧
      (xs ++ [Value.map payload] ++ [Value.map payload]).length = xs.length + 2) ∧
    PatchStageProvider.patchSequence payload "" "remove" xs = Except.ok xs := by
  refine ⟨?_, ?_⟩
  · intro ha
    refine ⟨?_, ?_, ?_⟩
    · simp [PatchStageProvider.patchSequence, ha]
    · simp [PatchStageProvider.patchSequence, ha]
    · simp
  · simp [PatchStageProvider.patchSequence]

/-! ### Recursion without a guard -/

/-- On a set of catalogs that lack the field and name one another as parents,
the walk uses up every budget. -/
theorem unwindOverrides_cycle (env : Env) (field : String) (inCycle : String → Prop)
    (hclosed : ∀ id, inCycle id → ∃ catalog, env.GetCatalog id = Except.ok catalog ∧
      lookup field catalog.Spec.Properties = none ∧ catalog.Spec.ParentName ≠ "" ∧
      inCycle catalog.Spec.ParentName) :
    ∀ (fuel : Nat) (id : String), inCycle id →
      CatalogConfigProvider.unwindOverrides env fuel id field
        = Except.error Fault.outOfFuel := by
  intro fuel
  induction fuel with
  | zero => intro id _; rfl
  | succ fuel ih =>
    intro id hid
    obtain ⟨catalog, hget, hlook, hparent, hnext⟩ := hclosed id hid
    rw [CatalogConfigProvider.unwindOverrides]
    simp only [hget, hlook]
    rw [if_pos hparent]
    exact ih _ hnext

theorem Read_cycle (env : Env) (field : String) (inCycle : String → Prop)
    (hclosed : ∀ id, inCycle id → ∃ catalog, env.GetCatalog id = Except.ok catalog ∧
      lookup field catalog.Spec.Properties = none ∧ catalog.Spec.ParentName ≠ "" ∧
      inCycle catalog.Spec.ParentName)
    (fuel : Nat) (object : String) (localcontext : LocalContext) (hobject : inCycle object) :
    CatalogConfigProvider.Read env fuel object field localcontext
      = Except.error Fault.outOfFuel := by
  obtain ⟨catalog, hget, hlook, hparent, hnext⟩ := hclosed object hobject
  unfold CatalogConfigProvider.Read
  simp only [hget, hlook]
  rw [if_pos hparent, unwindOverrides_cycle env field inCycle hclosed fuel _ hnext]

/-- A template that the evaluator resolves to the sequence holding the same
template is traced without end. -/
theorem traceValue_nesting (env : Env) (localcontext : LocalContext) (s : String)
    (heval : env.Eval (CatalogConfigProvider.deriveContext env localcontext) s
      = Except.ok (Value.seq [Value.str s])) :
    ∀ fuel : Nat,
      CatalogConfigProvider.traceValue env localcontext fuel (Value.str s)
        = Except.error Fault.outOfFuel ∧
      CatalogConfigProvider.traceValue env localcontext fuel (Value.seq [Value.str s])
        = Except.error Fault.outOfFuel := by
  intro fuel
  induction fuel with
  | zero => exact ⟨rfl, rfl⟩
  | succ fuel ih =>
    refine ⟨?_, ?_⟩
    · rw [CatalogConfigProvider.traceValue]
      simp only [heval]
      exact ih.2
    · rw [CatalogConfigProvider.traceValue]
      simp only [traceSeq, ih.1]

/-- C12 (amended): the walk along parent names and the nested tracing have no
guard. On catalogs that lack the field and name one another as parents `Read`
yields no result and no error for any recursion budget; tracing a template
that the evaluator resolves to a sequence holding the same template does
neither. -/
theorem C12_no_cycle_guard (env : Env) (field : String) (localcontext : LocalContext) :
    (∀ inCycle : String → Prop,
      (∀ id, inCycle id → ∃ catalog, env.GetCatalog id = Except.ok catalog ∧
        lookup field catalog.Spec.Properties = none ∧ catalog.Spec.ParentName ≠ "" ∧
        inCycle catalog.Spec.ParentName) →
      ∀ object, inCycle object → ∀ fuel,
        CatalogConfigProvider.Read env fuel object field localcontext
          = Except.error Fault.outOfFuel) ∧
    (∀ s, env.Eval (CatalogConfigProvider.deriveContext env localcontext) s
        = Except.ok (Value.seq [Value.str s]) →
      ∀ fuel, CatalogConfigProvider.traceValue env localcontext fuel (Value.str s)
        = Except.error Fault.outOfFuel) := by
  refine ⟨?_, ?_⟩
  · intro inCycle hclosed object hobject fuel
    exact Read_cycle env field inCycle hclosed fuel object localcontext hobject
  · intro s heval fuel
    exact (traceValue_nesting env localcontext s heval fuel).1

theorem cyclicCatalogs_closed (field : String) :
    ∀ id, (id = "a" ∨ id = "b") →
      ∃ catalog, (Sample.env Sample.cyclicCatalogs []).GetCatalog id = Except.ok catalog ∧
        lookup field catalog.Spec.Properties = none ∧ catalog.Spec.ParentName ≠ "" ∧
        (catalog.Spec.ParentName = "a" ∨ catalog.Spec.ParentName = "b") := by
  intro id hid
  rcases hid with h | h
  · subst h
    exact ⟨CatalogState.mk "a" (CatalogSpec.mk [] "b"), rfl, rfl, by decide, Or.inr rfl⟩
  · subst h
    exact ⟨CatalogState.mk "b" (CatalogSpec.mk [] "a"), rfl, rfl, by decide, Or.inl rfl⟩

/-- C12 (witness): the theorem at the catalogs `a` and `b`, each the parent of
the other, read with a budget of 1000 calls. -/
theorem C12_no_cycle_guard_witness :
    CatalogConfigProvider.Read (Sample.env Sample.cyclicCatalogs []) 1000 "a" "k"
      LocalContext.nil = Except.error Fault.outOfFuel :=
  (C12_no_cycle_guard (Sample.env Sample.cyclicCatalogs []) "k" LocalContext.nil).1
    (fun id => id = "a" ∨ id = "b") (cyclicCatalogs_closed "k") "a" (Or.inl rfl) 1000

/-- C12 (counterexample): catalog `a` has the parent `b` and `b` the parent
`a`, neither holds `k`; for no recursion budget does `Read` of `k` on `a` end,
with a cycle error or otherwise, and the same holds for the trace of a
template that resolves to a sequence holding itself. -/
theorem C12_cyclic_chain_never_ends :
    (∀ fuel, CatalogConfigProvider.Read (Sample.env Sample.cyclicCatalogs []) fuel "a" "k"
      LocalContext.nil = Except.error Fault.outOfFuel) ∧
    (∀ fuel, CatalogConfigProvider.traceValue Sample.envNesting LocalContext.nil fuel
      (Value.str "$loop") = Except.error Fault.outOfFuel) :=
  ⟨fun fuel => Read_cycle (Sample.env Sample.cyclicCatalogs []) "k"
      (fun id => id = "a" ∨ id = "b") (cyclicCatalogs_closed "k") fuel "a" LocalContext.nil
      (Or.inl rfl),
    fun fuel => (traceValue_nesting Sample.envNesting LocalContext.nil "$loop" rfl fuel).1⟩

/-! ### Payload resolution -/

/-- C13: `Process` fails with BadConfig and makes no upsert, whatever the
solution store would answer, when the patch source is empty or `"catalog"`
and the content is not a string, when the patch source is `"inline"`, the
component name is not empty and the content is not a mapping, and when the
patch source is none of the empty string, `"catalog"` and `"inline"`. -/
theorem C13_malformed_payload_bad_config (env : Env) (fuel : Nat) (inputs : Props)
    (getSolution : String → String → Except GoError SolutionState)
    (upsertSolution : String → String → SolutionSpec → Option GoError) :
    ((env.ReadInputString inputs "patchSource" = "" ∨
        env.ReadInputString inputs "patchSource" = "catalog") →
      (∀ s, index inputs "patchContent" ≠ Value.str s) →
      PatchStageProvider.Process
          { env with GetSolution := getSolution, UpsertSolution := upsertSolution } fuel inputs
        = PatchStageProvider.Run.mk (Except.error (Fault.error
            (GoError.coa "patchContent is not valid" State.BadConfig))) []) ∧
    (env.ReadInputString inputs "patchSource" = "inline" →
      env.ReadInputString inputs "component" ≠ "" →
      (∀ m, index inputs "patchContent" ≠ Value.map m) →
      PatchStageProvider.Process
          { env with GetSolution := getSolution, UpsertSolution := upsertSolution } fuel inputs
        = PatchStageProvider.Run.mk (Except.error (Fault.error
            (GoError.coa "patchContent is not valid" State.BadConfig))) []) ∧
    (env.ReadInputString inputs "patchSource" ≠ "" →
      env.ReadInputString inputs "patchSource" ≠ "catalog" →
      env.ReadInputString inputs "patchSource" ≠ "inline" →
      PatchStageProvider.Process
          { env with GetSolution := getSolution, UpsertSolution := upsertSolution } fuel inputs
        = PatchStageProvider.Run.mk (Except.error (Fault.error
            (GoError.coa "patchSource is not valid" State.BadConfig))) []) := by
  refine ⟨?_, ?_, ?_⟩
  · intro hsrc hcontent
    unfold PatchStageProvider.Process
    simp only [PatchStageProvider.resolvePayload, hsrc, if_true]
    cases hc : index inputs "patchContent" with
    | str s => exact absurd hc (hcontent s)
    | _ => rfl
  · intro hsrc hcomp hcontent
    unfold PatchStageProvider.Process
    have hsrc2 : ¬ (("inline" : String) = "" ∨ ("inline" : String) = "catalog") := by decide
    simp only [PatchStageProvider.resolvePayload, hsrc, hsrc2, if_false, if_true]
    rw [if_pos hcomp]
    cases hc : index inputs "patchContent" with
    | map m => exact absurd hc (hcontent m)
    | _ => rfl
  · intro h1 h2 h3
    unfold PatchStageProvider.Process
    have hsrc : ¬ (env.ReadInputString inputs "patchSource" = "" ∨
        env.ReadInputString inputs "patchSource" = "catalog") := by
      intro h
      rcases h with h | h
      · exact h1 h
      · exact h2 h
    simp only [PatchStageProvider.resolvePayload, hsrc, h3, if_false]
    rfl

/-- C13 (witness): a request from the patch source `file` fails with
BadConfig, also when the solution store fails on every lookup. -/
theorem C13_malformed_payload_bad_config_witness :
    PatchStageProvider.Process
        { Sample.env [] [Sample.solutionS] with
          GetSolution := fun _ _ => Except.error (GoError.foreign "store is down"),
          UpsertSolution := fun _ _ _ => some (GoError.foreign "store is down") }
        3 Sample.unknownSource
      = PatchStageProvider.Run.mk (Except.error (Fault.error
          (GoError.coa "patchSource is not valid" State.BadConfig))) [] :=
  (C13_malformed_payload_bad_config (Sample.env [] [Sample.solutionS]) 3 Sample.unknownSource
    (fun _ _ => Except.error (GoError.foreign "store is down"))
    (fun _ _ _ => some (GoError.foreign "store is down"))).2.2
    (by decide) (by decide) (by decide)

/-- C14 (amended): with the patch source `"inline"` and an empty component
name, content that the JSON round trip cannot decode into a component spec
makes `Process` fail with the decoder's error as it is, and make no upsert,
whatever the solution store would answer. -/
theorem C14_undecodable_component (env : Env) (fuel : Nat) (inputs : Props)
    (getSolution : String → String → Except GoError SolutionState)
    (upsertSolution : String → String → SolutionSpec → Option GoError) (err : GoError)
    (hsrc : env.ReadInputString inputs "patchSource" = "inline")
    (hcomp : env.ReadInputString inputs "component" = "")
    (hdec : env.UnmarshalComponentSpec (index inputs "patchContent") = Except.error err) :
    PatchStageProvider.Process
        { env with GetSolution := getSolution, UpsertSolution := upsertSolution } fuel inputs
      = PatchStageProvider.Run.mk (Except.error (Fault.error err)) [] := by
  unfold PatchStageProvider.Process
  have hsrc2 : ¬ (("inline" : String) = "" ∨ ("inline" : String) = "catalog") := by decide
  simp only [PatchStageProvider.resolvePayload, hsrc, hsrc2, hcomp, hdec, if_false, if_true,
    ne_eq, not_true_eq_false]

/-- C14 (witness): the theorem at a request whose inline content is the
number 7, with a solution store that fails on every lookup. -/
theorem C14_undecodable_component_witness :
    Sample.readInputString Sample.undecodableComponent "patchSource" = "inline" ∧
    Sample.readInputString Sample.undecodableComponent "component" = "" ∧
    PatchStageProvider.Process
        { Sample.env [] [Sample.solutionS] with
          GetSolution := fun _ _ => Except.error (GoError.foreign "store is down"),
          UpsertSolution := fun _ _ _ => some (GoError.foreign "store is down") }
        3 Sample.undecodableComponent
      = PatchStageProvider.Run.mk (Except.error (Fault.error
          (GoError.foreign "json: cannot unmarshal"))) [] :=
  ⟨rfl, rfl,
    C14_undecodable_component (Sample.env [] [Sample.solutionS]) 3 Sample.undecodableComponent
      (fun _ _ => Except.error (GoError.foreign "store is down"))
      (fun _ _ _ => some (GoError.foreign "store is down"))
      (GoError.foreign "json: cannot unmarshal") rfl rfl rfl⟩

/-- C14 (counterexample): the inline content 7 of a whole-component request
does not decode into a component spec, and the error of `Process` is the
decoder's error, not a BadConfig error. -/
theorem C14_decoder_error_is_not_bad_config :
    PatchStageProvider.Process (Sample.env [] [Sample.solutionS]) 3 Sample.undecodableComponent
      = PatchStageProvider.Run.mk (Except.error (Fault.error
          (GoError.foreign "json: cannot unmarshal"))) [] ∧
    (∀ msg, GoError.foreign "json: cannot unmarshal" ≠ GoError.coa msg State.BadConfig) :=
  ⟨rfl, fun _ h => GoError.noConfusion h⟩

/-! ### The local lookup -/

/-- The trace of a value does not depend on the catalog store. -/
theorem traceValue_store_irrelevant (env : Env)
    (getCatalog : String → Except GoError CatalogState) (localcontext : LocalContext) :
    ∀ (fuel : Nat) (v : Value),
      CatalogConfigProvider.traceValue { env with GetCatalog := getCatalog } localcontext fuel v
        = CatalogConfigProvider.traceValue env localcontext fuel v := by
  intro fuel
  induction fuel with
  | zero => intro v; rfl
  | succ fuel ih =>
    intro v
    have hfun : CatalogConfigProvider.traceValue { env with GetCatalog := getCatalog }
        localcontext fuel = CatalogConfigProvider.traceValue env localcontext fuel :=
      funext ih
    cases v with
    | str s =>
      rw [CatalogConfigProvider.traceValue, CatalogConfigProvider.traceValue, hfun]
      rfl
    | seq xs =>
      rw [CatalogConfigProvider.traceValue, CatalogConfigProvider.traceValue, hfun]
    | map kvs =>
      rw [CatalogConfigProvider.traceValue, CatalogConfigProvider.traceValue, hfun]
    | null => rfl
    | num n => rfl
    | bool b => rfl
    | component n ps => rfl

/-- C15: when the catalog fetched for the object holds the field, `Read`
returns the trace of the local value under the local context, be it a value
or a failure, whatever the catalog store holds for other catalogs, the
ancestors included. -/
theorem C15_local_field_is_traced (env : Env)
    (getCatalog : String → Except GoError CatalogState) (fuel : Nat)
    (object field : String) (localcontext : LocalContext) (catalog : CatalogState)
    (v : Value)
    (hget : getCatalog object = Except.ok catalog)
    (hfield : lookup field catalog.Spec.Properties = some v) :
    CatalogConfigProvider.Read { env with GetCatalog := getCatalog } fuel object field
        localcontext
      = CatalogConfigProvider.traceValue env localcontext fuel v := by
  unfold CatalogConfigProvider.Read
  simp only [hget, hfield]
  exact traceValue_store_irrelevant env getCatalog localcontext fuel v

/-- C15 (witness): `override` and its parent `base` both hold `timeout`; the
read on `override` is the trace of its own value `45`. -/
theorem C15_local_field_is_traced_witness :
    Sample.getCatalog Sample.overriding "override"
      = Except.ok (CatalogState.mk "override"
          (CatalogSpec.mk [("timeout", Value.str "45")] "base")) ∧
    CatalogConfigProvider.Read
        { Sample.env [] [] with GetCatalog := Sample.getCatalog Sample.overriding }
        1 "override" "timeout" LocalContext.nil
      = Except.ok (Value.str "45") :=
  ⟨rfl,
    C15_local_field_is_traced (Sample.env [] []) (Sample.getCatalog Sample.overriding) 1
      "override" "timeout" LocalContext.nil
      (CatalogState.mk "override" (CatalogSpec.mk [("timeout", Value.str "45")] "base"))
      (Value.str "45") rfl rfl⟩

/-! ### The trace of sequences, strings and string-free values -/

theorem traceSeq_ok_iff (f : Value → Except Fault Value) (xs : List Value) :
    ∀ ts, traceSeq f xs = Except.ok ts ↔ List.Forall₂ (fun x t => f x = Except.ok t) xs ts := by
  induction xs with
  | nil =>
    intro ts
    simp only [traceSeq]
    constructor
    · intro h
      injection h with h
      subst h
      exact List.Forall₂.nil
    · intro h
      cases h
      rfl
  | cons x rest ih =>
    intro ts
    simp only [traceSeq]
    constructor
    · intro h
      cases hx : f x with
      | error e => simp [hx] at h
      | ok t =>
        cases hr : traceSeq f rest with
        | error e => simp [hx, hr] at h
        | ok tr =>
          simp only [hx, hr] at h
          injection h with h
          subst h
          exact List.Forall₂.cons hx ((ih tr).mp hr)
    · intro h
      cases h with
      | cons hx hrest =>
        simp only [hx, (ih _).mpr hrest]

theorem traceSeq_all_ok (f : Value → Except Fault Value) (xs : List Value)
    (h : ∀ x ∈ xs, ∃ t, f x = Except.ok t) : ∃ ts, traceSeq f xs = Except.ok ts := by
  induction xs with
  | nil => exact ⟨[], rfl⟩
  | cons x rest ih =>
    obtain ⟨t, ht⟩ := h x (List.mem_cons_self _ _)
    obtain ⟨tr, hr⟩ := ih (fun y hy => h y (List.mem_cons_of_mem _ hy))
    exact ⟨t :: tr, by simp only [traceSeq, ht, hr]⟩

theorem traceSeq_first_error (f : Value → Except Fault Value) (pre : List Value) (x : Value)
    (post : List Value) (e : Fault) (hpre : ∀ y ∈ pre, ∃ t, f y = Except.ok t)
    (hx : f x = Except.error e) : traceSeq f (pre ++ x :: post) = Except.error e := by
  induction pre with
  | nil => simp only [List.nil_append, traceSeq, hx]
  | cons y rest ih =>
    obtain ⟨t, ht⟩ := hpre y (List.mem_cons_self _ _)
    have hrest := ih (fun z hz => hpre z (List.mem_cons_of_mem _ hz))
    rw [List.cons_append, traceSeq]
    simp only [ht]
    rw [hrest]

theorem forall₂_all_ok (f : Value → Except Fault Value) (xs ts : List Value)
    (h : List.Forall₂ (fun x t => f x = Except.ok t) xs ts) :
    ∀ x ∈ xs, ∃ t, f x = Except.ok t := by
  induction h with
  | nil => intro x hx; exact absurd hx (List.not_mem_nil x)
  | cons hx _ ih =>
    intro y hy
    rcases List.mem_cons.mp hy with h | h
    · subst h
      exact ⟨_, hx⟩
    · exact ih y h

/-- The trace of a sequence through `traceSeq g`: it succeeds exactly when `g`
succeeds on every element, its result is then the sequence of the results of
`g`, in order, and it fails with the failure of the first element on which `g`
fails, whatever follows that element. -/
theorem traceSeq_wrapped (g : Value → Except Fault Value) (xs : List Value)
    (whole : Except Fault Value)
    (hwhole : whole = match traceSeq g xs with
      | Except.error e => Except.error e
      | Except.ok ret => Except.ok (Value.seq ret)) :
    ((∃ r, whole = Except.ok r) ↔ ∀ x ∈ xs, ∃ t, g x = Except.ok t) ∧
    (∀ r, whole = Except.ok r →
      ∃ ts, r = Value.seq ts ∧ ts.length = xs.length ∧
        List.Forall₂ (fun x t => g x = Except.ok t) xs ts) ∧
    (∀ pre x post e, xs = pre ++ x :: post → (∀ y ∈ pre, ∃ t, g y = Except.ok t) →
      g x = Except.error e → whole = Except.error e) := by
  subst hwhole
  refine ⟨⟨?_, ?_⟩, ?_, ?_⟩
  · rintro ⟨r, hr⟩
    cases hs : traceSeq g xs with
    | error e => simp [hs] at hr
    | ok ts => exact forall₂_all_ok g xs ts ((traceSeq_ok_iff g xs ts).mp hs)
  · intro h
    obtain ⟨ts, hts⟩ := traceSeq_all_ok g xs h
    exact ⟨Value.seq ts, by simp only [hts]⟩
  · intro r hr
    cases hs : traceSeq g xs with
    | error e => simp [hs] at hr
    | ok ts =>
      simp only [hs] at hr
      injection hr with hr
      have hall := (traceSeq_ok_iff g xs ts).mp hs
      exact ⟨ts, hr.symm, hall.length_eq.symm, hall⟩
  · intro pre x post e hsplit hpre hx
    rw [hsplit, traceSeq_first_error g pre x post e hpre hx]

/-- C16: in both providers the trace of a sequence succeeds exactly when the
trace of every element succeeds; the result is then the sequence of the traced
elements, of the same length and in the same order; otherwise the trace fails
with the failure of the first failing element and returns no sequence,
whatever the elements after that one are. -/
theorem C16_trace_sequence (env : Env) (localcontext : LocalContext) (ctx : Value)
    (fuel : Nat) (xs : List Value) :
    (((∃ r, CatalogConfigProvider.traceValue env localcontext (fuel + 1) (Value.seq xs)
          = Except.ok r) ↔
        ∀ x ∈ xs, ∃ t, CatalogConfigProvider.traceValue env localcontext fuel x
          = Except.ok t) ∧
      (∀ r, CatalogConfigProvider.traceValue env localcontext (fuel + 1) (Value.seq xs)
          = Except.ok r →
        ∃ ts, r = Value.seq ts ∧ ts.length = xs.length ∧
          List.Forall₂ (fun x t => CatalogConfigProvider.traceValue env localcontext fuel x
            = Except.ok t) xs ts) ∧
      (∀ pre x post e, xs = pre ++ x :: post →
        (∀ y ∈ pre, ∃ t, CatalogConfigProvider.traceValue env localcontext fuel y
          = Except.ok t) →
        CatalogConfigProvider.traceValue env localcontext fuel x = Except.error e →
        CatalogConfigProvider.traceValue env localcontext (fuel + 1) (Value.seq xs)
          = Except.error e)) ∧
    (((∃ r, PatchStageProvider.traceValue env ctx (fuel + 1) (Value.seq xs) = Except.ok r) ↔
        ∀ x ∈ xs, ∃ t, PatchStageProvider.traceValue env ctx fuel x = Except.ok t) ∧
      (∀ r, PatchStageProvider.traceValue env ctx (fuel + 1) (Value.seq xs) = Except.ok r →
        ∃ ts, r = Value.seq ts ∧ ts.length = xs.length ∧
          List.Forall₂ (fun x t => PatchStageProvider.traceValue env ctx fuel x
            = Except.ok t) xs ts) ∧
      (∀ pre x post e, xs = pre ++ x :: post →
        (∀ y ∈ pre, ∃ t, PatchStageProvider.traceValue env ctx fuel y = Except.ok t) →
        PatchStageProvider.traceValue env ctx fuel x = Except.error e →
        PatchStageProvider.traceValue env ctx (fuel + 1) (Value.seq xs)
          = Except.error e)) := by
  refine ⟨?_, ?_⟩
  · exact traceSeq_wrapped _ xs _ (by rw [CatalogConfigProvider.traceValue])
  · exact traceSeq_wrapped _ xs _ (by rw [PatchStageProvider.traceValue])

/-- C17: in both providers the trace of a string leaf `s` fails with the
evaluator's error when the evaluator fails on `s`, is the string `r` as it is
when the evaluator returns the string `r`, whatever the evaluator would
return on `r`, and is the trace of `w` when the evaluator returns a value `w`
that is not a string. -/
theorem C17_trace_string_leaf (env : Env) (localcontext : LocalContext) (ctx : Value)
    (fuel : Nat) (s : String) :
    ((∀ e, env.Eval (CatalogConfigProvider.deriveContext env localcontext) s
          = Except.error e →
        CatalogConfigProvider.traceValue env localcontext (fuel + 1) (Value.str s)
          = Except.error (Fault.error e)) ∧
      (∀ r, env.Eval (CatalogConfigProvider.deriveContext env localcontext) s
          = Except.ok (Value.str r) →
        CatalogConfigProvider.traceValue env localcontext (fuel + 1) (Value.str s)
          = Except.ok (Value.str r)) ∧
      (∀ w, env.Eval (CatalogConfigProvider.deriveContext env localcontext) s
          = Except.ok w → (∀ r, w ≠ Value.str r) →
        CatalogConfigProvider.traceValue env localcontext (fuel + 1) (Value.str s)
          = CatalogConfigProvider.traceValue env localcontext fuel w)) ∧
    ((∀ e, env.Eval { env.Clone env.EvaluationContext with Value := ctx } s
          = Except.error e →
        PatchStageProvider.traceValue env ctx (fuel + 1) (Value.str s)
          = Except.error (Fault.error e)) ∧
      (∀ r, env.Eval { env.Clone env.EvaluationContext with Value := ctx } s
          = Except.ok (Value.str r) →
        PatchStageProvider.traceValue env ctx (fuel + 1) (Value.str s)
          = Except.ok (Value.str r)) ∧
      (∀ w, env.Eval { env.Clone env.EvaluationContext with Value := ctx } s
          = Except.ok w → (∀ r, w ≠ Value.str r) →
        PatchStageProvider.traceValue env ctx (fuel + 1) (Value.str s)
          = PatchStageProvider.traceValue env ctx fuel w)) := by
  refine ⟨⟨?_, ?_, ?_⟩, ⟨?_, ?_, ?_⟩⟩
  · intro e h
    rw [CatalogConfigProvider.traceValue]
    simp only [h]
  · intro r h
    rw [CatalogConfigProvider.traceValue]
    simp only [h]
  · intro w h hw
    cases w with
    | str r => exact absurd rfl (hw r)
    | _ =>
      rw [CatalogConfigProvider.traceValue]
      simp only [h]
  · intro e h
    rw [PatchStageProvider.traceValue]
    simp only [h]
  · intro r h
    rw [PatchStageProvider.traceValue]
    simp only [h]
  · intro w h hw
    cases w with
    | str r => exact absurd rfl (hw r)
    | _ =>
      rw [PatchStageProvider.traceValue]
      simp only [h]

theorem traceSeq_id (f : Value → Except Fault Value) (xs : List Value)
    (h : ∀ x ∈ xs, f x = Except.ok x) : traceSeq f xs = Except.ok xs := by
  induction xs with
  | nil => rfl
  | cons x rest ih =>
    simp only [traceSeq, h x (List.mem_cons_self _ _),
      ih (fun y hy => h y (List.mem_cons_of_mem _ hy))]

theorem traceMap_id (f : Value → Except Fault Value) (kvs : Props)
    (h : ∀ kv ∈ kvs, f kv.2 = Except.ok kv.2) : traceMap f kvs = Except.ok kvs := by
  induction kvs with
  | nil => rfl
  | cons kv rest ih =>
    obtain ⟨k, v⟩ := kv
    have hv : f v = Except.ok v := h (k, v) (List.mem_cons_self _ _)
    simp only [traceMap, hv, ih (fun y hy => h y (List.mem_cons_of_mem _ hy))]

theorem stringFreeSeq_mem (xs : List Value) (h : stringFreeSeq xs = true) :
    ∀ x ∈ xs, stringFree x = true ∧ depth x ≤ depthSeq xs := by
  induction xs with
  | nil => intro x hx; exact absurd hx (List.not_mem_nil x)
  | cons y rest ih =>
    simp only [stringFreeSeq, Bool.and_eq_true] at h
    intro x hx
    rcases List.mem_cons.mp hx with hxy | hxr
    · subst hxy
      exact ⟨h.1, by simp only [depthSeq]; exact le_max_left _ _⟩
    · obtain ⟨h1, h2⟩ := ih h.2 x hxr
      exact ⟨h1, by simp only [depthSeq]; exact le_trans h2 (le_max_right _ _)⟩

theorem stringFreeMap_mem (kvs : Props) (h : stringFreeMap kvs = true) :
    ∀ kv ∈ kvs, stringFree kv.2 = true ∧ depth kv.2 ≤ depthMap kvs := by
  induction kvs with
  | nil => intro x hx; exact absurd hx (List.not_mem_nil x)
  | cons y rest ih =>
    obtain ⟨k, v⟩ := y
    simp only [stringFreeMap, Bool.and_eq_true] at h
    intro x hx
    rcases List.mem_cons.mp hx with hxy | hxr
    · subst hxy
      exact ⟨h.1, by simp only [depthMap]; exact le_max_left _ _⟩
    · obtain ⟨h1, h2⟩ := ih h.2 x hxr
      exact ⟨h1, by simp only [depthMap]; exact le_trans h2 (le_max_right _ _)⟩

/-- A function that handles strings, sequences and mappings like `traceValue`
and passes every other value through is the identity on string-free values,
given a budget above their depth. -/
theorem trace_stringFree_id (T : Nat → Value → Except Fault Value)
    (hseq : ∀ fuel xs, T (fuel + 1) (Value.seq xs)
      = match traceSeq (T fuel) xs with
        | Except.error e => Except.error e
        | Except.ok ret => Except.ok (Value.seq ret))
    (hmap : ∀ fuel kvs, T (fuel + 1) (Value.map kvs)
      = match traceMap (T fuel) kvs with
        | Except.error e => Except.error e
        | Except.ok ret => Except.ok (Value.map ret))
    (hnull : ∀ fuel, T (fuel + 1) Value.null = Except.ok Value.null)
    (hnum : ∀ fuel n, T (fuel + 1) (Value.num n) = Except.ok (Value.num n))
    (hbool : ∀ fuel b, T (fuel + 1) (Value.bool b) = Except.ok (Value.bool b))
    (hcomponent : ∀ fuel n ps, T (fuel + 1) (Value.component n ps)
      = Except.ok (Value.component n ps)) :
    ∀ (fuel : Nat) (v : Value), stringFree v = true → depth v < fuel →
      T fuel v = Except.ok v := by
  intro fuel
  induction fuel with
  | zero => intro v _ hd; exact absurd hd (Nat.not_lt_zero _)
  | succ fuel ih =>
    intro v hv hd
    cases v with
    | null => exact hnull fuel
    | num n => exact hnum fuel n
    | bool b => exact hbool fuel b
    | component n ps => exact hcomponent fuel n ps
    | str s => simp [stringFree] at hv
    | seq xs =>
      simp only [stringFree] at hv
      simp only [depth] at hd
      have hall : ∀ x ∈ xs, T fuel x = Except.ok x := by
        intro x hx
        obtain ⟨h1, h2⟩ := stringFreeSeq_mem xs hv x hx
        exact ih x h1 (by omega)
      rw [hseq, traceSeq_id _ xs hall]
    | map kvs =>
      simp only [stringFree] at hv
      simp only [depth] at hd
      have hall : ∀ kv ∈ kvs, T fuel kv.2 = Except.ok kv.2 := by
        intro kv hkv
        obtain ⟨h1, h2⟩ := stringFreeMap_mem kvs hv kv hkv
        exact ih kv.2 h1 (by omega)
      rw [hmap, traceMap_id _ kvs hall]

/-- C18: in both providers the trace of a value without a string leaf at any
depth, with a recursion budget above the nesting depth of the value, succeeds
and returns the value itself, with the keys of every mapping and the order of
every sequence, whatever evaluator `eval` the provider has. -/
theorem C18_trace_identity_on_string_free (env : Env)
    (eval : EvaluationContext → String → Except GoError Value)
    (localcontext : LocalContext) (ctx : Value) (fuel : Nat) (v : Value)
    (hfree : stringFree v = true) (hfuel : depth v < fuel) :
    CatalogConfigProvider.traceValue { env with Eval := eval } localcontext fuel v
      = Except.ok v ∧
    PatchStageProvider.traceValue { env with Eval := eval } ctx fuel v = Except.ok v := by
  refine ⟨?_, ?_⟩
  · apply trace_stringFree_id
      (CatalogConfigProvider.traceValue { env with Eval := eval } localcontext)
    · intro fuel xs; rw [CatalogConfigProvider.traceValue]
    · intro fuel kvs; rw [CatalogConfigProvider.traceValue]
    · intro fuel; rfl
    · intro fuel n; rfl
    · intro fuel b; rfl
    · intro fuel n ps; rfl
    · exact hfree
    · exact hfuel
  · apply trace_stringFree_id (PatchStageProvider.traceValue { env with Eval := eval } ctx)
    · intro fuel xs; rw [PatchStageProvider.traceValue]
    · intro fuel kvs; rw [PatchStageProvider.traceValue]
    · intro fuel; rfl
    · intro fuel n; rfl
    · intro fuel b; rfl
    · intro fuel n ps; rfl
    · exact hfree
    · exact hfuel

/-- C18 (witness): the value `[1, (on: true, limits: [2, null])]` is traced to
itself by a provider whose evaluator fails on every template. -/
theorem C18_trace_identity_on_string_free_witness :
    stringFree (Value.seq [Value.num 1, Value.map [("on", Value.bool true),
      ("limits", Value.seq [Value.num 2, Value.null])]]) = true ∧
    depth (Value.seq [Value.num 1, Value.map [("on", Value.bool true),
      ("limits", Value.seq [Value.num 2, Value.null])]]) < 4 ∧
    CatalogConfigProvider.traceValue
        { Sample.env [] [] with
          Eval := fun _ _ => Except.error (GoError.foreign "evaluation failed") }
        LocalContext.nil 4
        (Value.seq [Value.num 1, Value.map [("on", Value.bool true),
          ("limits", Value.seq [Value.num 2, Value.null])]])
      = Except.ok (Value.seq [Value.num 1, Value.map [("on", Value.bool true),
          ("limits", Value.seq [Value.num 2, Value.null])]]) :=
  ⟨rfl, by decide,
    (C18_trace_identity_on_string_free (Sample.env [] [])
      (fun _ _ => Except.error (GoError.foreign "evaluation failed"))
      LocalContext.nil Value.null 4
      (Value.seq [Value.num 1, Value.map [("on", Value.bool true),
        ("limits", Value.seq [Value.num 2, Value.null])]]) rfl (by decide)).1⟩

/-! ### The visiting order of the object merge -/

theorem lookup_eq_none_iff (k : String) (m : Props) :
    lookup k m = none ↔ k ∉ m.map Prod.fst := by
  induction m with
  | nil => simp [lookup]
  | cons kv rest ih =>
    obtain ⟨k1, v1⟩ := kv
    by_cases h : k1 = k
    · simp [lookup, h]
    · have h2 : ¬ k = k1 := fun h3 => h h3.symm
      simp [lookup, h, h2, ih]

theorem mem_of_lookup (k : String) (v : Value) (m : Props) (h : lookup k m = some v) :
    (k, v) ∈ m := by
  induction m with
  | nil => simp [lookup] at h
  | cons kv rest ih =>
    obtain ⟨k1, v1⟩ := kv
    by_cases h1 : k1 = k
    · simp only [lookup, h1, if_true, Option.some.injEq] at h
      rw [h1, h]
      exact List.mem_cons_self _ _
    · simp only [lookup, h1, if_false] at h
      exact List.mem_cons_of_mem _ (ih h)

theorem lookup_of_mem_nodup (k : String) (v : Value) (m : Props)
    (hkeys : (m.map Prod.fst).Nodup) (h : (k, v) ∈ m) : lookup k m = some v := by
  induction m with
  | nil => exact absurd h (List.not_mem_nil _)
  | cons kv rest ih =>
    obtain ⟨k1, v1⟩ := kv
    simp only [List.map_cons, List.nodup_cons] at hkeys
    rcases List.mem_cons.mp h with heq | hrest
    · have hk : k = k1 := congrArg Prod.fst heq
      have hv : v = v1 := congrArg Prod.snd heq
      simp [lookup, hk, hv]
    · have hne : k1 ≠ k := by
        intro h1
        exact hkeys.1 (h1 ▸ List.mem_map_of_mem Prod.fst hrest)
      simp only [lookup, hne, if_false]
      exact ih hkeys.2 hrest

/-- A lookup in a map does not depend on the order in which its entries are
listed, the keys being distinct. -/
theorem lookup_perm (k : String) (m reordered : Props) (hperm : reordered.Perm m) :
    (lookup k m = none → lookup k reordered = none) ∧
    (∀ v, (m.map Prod.fst).Nodup → lookup k m = some v → lookup k reordered = some v) := by
  refine ⟨?_, ?_⟩
  · intro h
    rw [lookup_eq_none_iff] at h ⊢
    intro hk
    exact h ((hperm.map Prod.fst).mem_iff.mp hk)
  · intro v hkeys h
    apply lookup_of_mem_nodup
    · exact (List.Perm.nodup_iff (hperm.map Prod.fst)).mpr hkeys
    · exact hperm.mem_iff.mpr (mem_of_lookup k v m h)

theorem lookup_mergeMissing_none (a : String) (tmap : Props) :
    ∀ ret : Props, lookup a ret = none → lookup a tmap = none →
      lookup a (CatalogConfigProvider.mergeMissing ret tmap) = none := by
  induction tmap with
  | nil => intro ret h _; simpa [CatalogConfigProvider.mergeMissing] using h
  | cons kv rest ih =>
    intro ret h ht
    obtain ⟨tk, tv⟩ := kv
    have hne : tk ≠ a := by
      intro heq
      simp [lookup, heq] at ht
    have hrest : lookup a rest = none := by
      simpa [lookup, hne] using ht
    unfold CatalogConfigProvider.mergeMissing
    cases hl : lookup tk ret with
    | some w => exact ih ret h hrest
    | none =>
      apply ih _ _ hrest
      rw [lookup_assign_ne a tk tv ret hne]
      exact h

theorem lookup_mergeMissing_adds (a : String) (v : Value) (tmap : Props) :
    ∀ ret : Props, lookup a ret = none → lookup a tmap = some v →
      lookup a (CatalogConfigProvider.mergeMissing ret tmap) = some v := by
  induction tmap with
  | nil => intro ret _ ht; simp [lookup] at ht
  | cons kv rest ih =>
    intro ret h ht
    obtain ⟨tk, tv⟩ := kv
    unfold CatalogConfigProvider.mergeMissing
    by_cases hk : tk = a
    · subst hk
      simp only [lookup, if_true, Option.some.injEq] at ht
      subst ht
      simp only [h]
      exact lookup_mergeMissing_of_some tk tv rest _ (lookup_assign_self tk tv ret)
    · have hrest : lookup a rest = some v := by
        simpa [lookup, hk] using ht
      cases hl : lookup tk ret with
      | some w => exact ih ret h hrest
      | none =>
        apply ih _ _ hrest
        rw [lookup_assign_ne a tk tv ret hk]
        exact h

theorem readObjectLoop_append (env : Env) (fuel : Nat) (localcontext : LocalContext)
    (range : Props → Props) (pre rest : Props) :
    ∀ ret : Props,
      CatalogConfigProvider.readObjectLoop env fuel localcontext range (pre ++ rest) ret
        = match CatalogConfigProvider.readObjectLoop env fuel localcontext range pre ret with
          | Except.error e => Except.error e
          | Except.ok mid =>
            CatalogConfigProvider.readObjectLoop env fuel localcontext range rest mid := by
  induction pre with
  | nil => intro ret; simp [CatalogConfigProvider.readObjectLoop]
  | cons kv more ih =>
    intro ret
    obtain ⟨k, v⟩ := kv
    simp only [List.cons_append, CatalogConfigProvider.readObjectLoop]
    cases ht : CatalogConfigProvider.traceValue env localcontext fuel v with
    | error e => rfl
    | ok tv =>
      cases tv with
      | map tmap => exact ih _
      | _ => exact ih _

/-- Visiting properties that contribute nothing under the key `a` leaves the
result without `a`. -/
theorem readObjectLoop_absent (env : Env) (fuel : Nat) (localcontext : LocalContext)
    (range : Props → Props) (a : String) (ps : Props) :
    ∀ ret : Props,
      (∀ kv ∈ ps, ∃ tv, CatalogConfigProvider.traceValue env localcontext fuel kv.2
          = Except.ok tv ∧
        ((∃ m, tv = Value.map m ∧ lookup a (range m) = none) ∨
          ((∀ m, tv ≠ Value.map m) ∧ kv.1 ≠ a))) →
      lookup a ret = none →
      ∃ out, CatalogConfigProvider.readObjectLoop env fuel localcontext range ps ret
          = Except.ok out ∧ lookup a out = none := by
  induction ps with
  | nil =>
    intro ret _ h
    exact ⟨ret, by simp [CatalogConfigProvider.readObjectLoop], h⟩
  | cons kv rest ih =>
    intro ret hall h
    obtain ⟨k1, v1⟩ := kv
    obtain ⟨tv, htv, hcase⟩ := hall (k1, v1) (List.mem_cons_self _ _)
    have hall2 := fun kv hkv => hall kv (List.mem_cons_of_mem _ hkv)
    simp only at htv
    unfold CatalogConfigProvider.readObjectLoop
    rw [htv]
    rcases hcase with ⟨m, hm, hnone⟩ | ⟨hnot, hne⟩
    · subst hm
      exact ih _ hall2 (lookup_mergeMissing_none a _ ret h hnone)
    · cases tv with
      | map tmap => exact absurd rfl (hnot tmap)
      | _ => exact ih _ hall2 (by rw [lookup_assign_ne a k1 _ ret hne]; exact h)

/-- Once the result maps `a` to `v`, visiting properties none of which is a
non-mapping stored under `a` leaves it so. -/
theorem readObjectLoop_keeps_nested (env : Env) (fuel : Nat) (localcontext : LocalContext)
    (range : Props → Props) (a : String) (v : Value) (ps : Props) :
    ∀ ret : Props,
      (∀ kv ∈ ps, ∃ tv, CatalogConfigProvider.traceValue env localcontext fuel kv.2
          = Except.ok tv ∧ ((∀ m, tv ≠ Value.map m) → kv.1 ≠ a)) →
      lookup a ret = some v →
      ∃ out, CatalogConfigProvider.readObjectLoop env fuel localcontext range ps ret
          = Except.ok out ∧ lookup a out = some v := by
  induction ps with
  | nil =>
    intro ret _ h
    exact ⟨ret, by simp [CatalogConfigProvider.readObjectLoop], h⟩
  | cons kv rest ih =>
    intro ret hall h
    obtain ⟨k1, v1⟩ := kv
    obtain ⟨tv, htv, hcase⟩ := hall (k1, v1) (List.mem_cons_self _ _)
    have hall2 := fun kv hkv => hall kv (List.mem_cons_of_mem _ hkv)
    simp only at htv
    unfold CatalogConfigProvider.readObjectLoop
    rw [htv]
    cases tv with
    | map tmap => exact ih _ hall2 (lookup_mergeMissing_of_some a v _ ret h)
    | null =>
      exact ih _ hall2 (by
        rw [lookup_assign_ne a k1 _ ret (hcase (fun m hm => Value.noConfusion hm))]; exact h)
    | str s =>
      exact ih _ hall2 (by
        rw [lookup_assign_ne a k1 _ ret (hcase (fun m hm => Value.noConfusion hm))]; exact h)
    | num n =>
      exact ih _ hall2 (by
        rw [lookup_assign_ne a k1 _ ret (hcase (fun m hm => Value.noConfusion hm))]; exact h)
    | bool b =>
      exact ih _ hall2 (by
        rw [lookup_assign_ne a k1 _ ret (hcase (fun m hm => Value.noConfusion hm))]; exact h)
    | seq xs =>
      exact ih _ hall2 (by
        rw [lookup_assign_ne a k1 _ ret (hcase (fun m hm => Value.noConfusion hm))]; exact h)
    | component n ps =>
      exact ih _ hall2 (by
        rw [lookup_assign_ne a k1 _ ret (hcase (fun m hm => Value.noConfusion hm))]; exact h)

/-- C19 (amended): `ReadObject` applies the properties in the order `range` in
which the map is visited. When every property traces successfully, no
property that traces to a non-mapping is stored under the nested key `a`, the
property `k1` traces to a mapping holding `a` with the value `v1` and no
property visited before `k1` traces to a mapping holding `a`, the result maps
`a` to `v1`, whatever the properties visited after `k1` contribute. -/
theorem C19_first_visited_mapping_wins (env : Env) (fuel : Nat) (object : String)
    (localcontext : LocalContext) (range : Props → Props) (catalog : CatalogState)
    (a : String) (pre : Props) (k1 : String) (raw1 : Value) (post m1 : Props) (v1 : Value)
    (hget : env.GetCatalog object = Except.ok catalog)
    (hrange : ∀ m : Props, (range m).Perm m)
    (hvisit : range catalog.Spec.Properties = pre ++ (k1, raw1) :: post)
    (hall : ∀ kv ∈ catalog.Spec.Properties,
      ∃ tv, CatalogConfigProvider.traceValue env localcontext fuel kv.2 = Except.ok tv)
    (htop : ∀ kv ∈ catalog.Spec.Properties, ∀ tv,
      CatalogConfigProvider.traceValue env localcontext fuel kv.2 = Except.ok tv →
      (∀ m, tv ≠ Value.map m) → kv.1 ≠ a)
    (hfirst : CatalogConfigProvider.traceValue env localcontext fuel raw1
      = Except.ok (Value.map m1))
    (hkeys : (m1.map Prod.fst).Nodup)
    (hv : lookup a m1 = some v1)
    (hbefore : ∀ kv ∈ pre, ∀ m,
      CatalogConfigProvider.traceValue env localcontext fuel kv.2 = Except.ok (Value.map m) →
      lookup a m = none) :
    ∃ out, CatalogConfigProvider.ReadObject env fuel object localcontext range = Except.ok out ∧
      lookup a out = some v1 := by
  have hmem : ∀ kv, kv ∈ pre ++ (k1, raw1) :: post → kv ∈ catalog.Spec.Properties := by
    intro kv hkv
    rw [← hvisit] at hkv
    exact (hrange catalog.Spec.Properties).mem_iff.mp hkv
  have hpre : ∀ kv ∈ pre, ∃ tv,
      CatalogConfigProvider.traceValue env localcontext fuel kv.2 = Except.ok tv ∧
      ((∃ m, tv = Value.map m ∧ lookup a (range m) = none) ∨
        ((∀ m, tv ≠ Value.map m) ∧ kv.1 ≠ a)) := by
    intro kv hkv
    have hin := hmem kv (List.mem_append_left _ hkv)
    obtain ⟨tv, htv⟩ := hall kv hin
    refine ⟨tv, htv, ?_⟩
    by_cases hmap : ∃ m, tv = Value.map m
    · obtain ⟨m, hm⟩ := hmap
      subst hm
      exact Or.inl ⟨m, rfl, (lookup_perm a m (range m) (hrange m)).1 (hbefore kv hkv m htv)⟩
    · have hnot : ∀ m, tv ≠ Value.map m := fun m hm => hmap ⟨m, hm⟩
      exact Or.inr ⟨hnot, htop kv hin tv htv hnot⟩
  have hpost : ∀ kv ∈ post, ∃ tv,
      CatalogConfigProvider.traceValue env localcontext fuel kv.2 = Except.ok tv ∧
      ((∀ m, tv ≠ Value.map m) → kv.1 ≠ a) := by
    intro kv hkv
    have hin := hmem kv (List.mem_append_right _ (List.mem_cons_of_mem _ hkv))
    obtain ⟨tv, htv⟩ := hall kv hin
    exact ⟨tv, htv, htop kv hin tv htv⟩
  obtain ⟨mid, hmid, hnone⟩ :=
    readObjectLoop_absent env fuel localcontext range a pre [] hpre rfl
  have hadded : lookup a (CatalogConfigProvider.mergeMissing mid (range m1)) = some v1 :=
    lookup_mergeMissing_adds a v1 _ mid hnone
      ((lookup_perm a m1 (range m1) (hrange m1)).2 v1 hkeys hv)
  obtain ⟨out, hout, hlook⟩ :=
    readObjectLoop_keeps_nested env fuel localcontext range a v1 post _ hpost hadded
  refine ⟨out, ?_, hlook⟩
  unfold CatalogConfigProvider.ReadObject
  simp only [hget, hvisit]
  rw [readObjectLoop_append, hmid]
  simp only [CatalogConfigProvider.readObjectLoop, hfirst]
  exact hout

/-- C19 (witness): the theorem at the catalog `pair` visited in reverse order,
`y` before `x`: the result holds the value 2 that `y` contributes under `a`. -/
theorem C19_first_visited_mapping_wins_witness :
    (∀ m : Props, (List.reverse m).Perm m) ∧
    List.reverse [("x", Value.map [("a", Value.num 1)]), ("y", Value.map [("a", Value.num 2)])]
      = [] ++ ("y", Value.map [("a", Value.num 2)]) :: [("x", Value.map [("a", Value.num 1)])] ∧
    (∃ out, CatalogConfigProvider.ReadObject (Sample.env Sample.pairCatalog []) 3 "pair"
        LocalContext.nil List.reverse = Except.ok out ∧ lookup "a" out = some (Value.num 2)) :=
  ⟨fun m => List.reverse_perm m, rfl,
    C19_first_visited_mapping_wins (Sample.env Sample.pairCatalog []) 3 "pair"
      LocalContext.nil List.reverse
      (CatalogState.mk "pair" (CatalogSpec.mk
        [("x", Value.map [("a", Value.num 1)]), ("y", Value.map [("a", Value.num 2)])] ""))
      "a" [] "y" (Value.map [("a", Value.num 2)]) [("x", Value.map [("a", Value.num 1)])]
      [("a", Value.num 2)] (Value.num 2) rfl (fun m => List.reverse_perm m) rfl
      (by
        intro kv hkv
        rcases List.mem_cons.mp hkv with h | hkv
        · exact ⟨Value.map [("a", Value.num 1)], by rw [h]; rfl⟩
        · rcases List.mem_cons.mp hkv with h | hkv
          · exact ⟨Value.map [("a", Value.num 2)], by rw [h]; rfl⟩
          · exact absurd hkv (List.not_mem_nil _))
      (by
        intro kv hkv tv htv hnot
        rcases List.mem_cons.mp hkv with h | hkv
        · rw [h] at htv
          have h2 : Except.ok (Value.map [("a", Value.num 1)]) = Except.ok tv := htv
          injection h2 with h2
          exact absurd h2.symm (hnot _)
        · rcases List.mem_cons.mp hkv with h | hkv
          · rw [h] at htv
            have h2 : Except.ok (Value.map [("a", Value.num 2)]) = Except.ok tv := htv
            injection h2 with h2
            exact absurd h2.symm (hnot _)
          · exact absurd hkv (List.not_mem_nil _))
      rfl (by decide) rfl
      (fun kv hkv => absurd hkv (List.not_mem_nil kv))⟩

/-- C19 (counterexample): the properties `x` and `y` of the catalog `pair`
both trace to a mapping with the key `a`; two reads of the same catalog with
the same evaluator return `a: 1` when `x` is visited first and `a: 2` when `y`
is visited first. -/
theorem C19_result_depends_on_visiting_order :
    CatalogConfigProvider.ReadObject (Sample.env Sample.pairCatalog []) 3 "pair"
        LocalContext.nil (fun m => m) = Except.ok [("a", Value.num 1)] ∧
    CatalogConfigProvider.ReadObject (Sample.env Sample.pairCatalog []) 3 "pair"
        LocalContext.nil List.reverse = Except.ok [("a", Value.num 2)] :=
  ⟨rfl, rfl⟩

/-! ### The context of a string leaf -/

/-- C20 (amended): the context derived for a string leaf is the clone of the
vendor's context with the vendor's deployment spec when the local context is
nil or is not an evaluation context (so it is the vendor's context itself
when `Clone` returns an equal copy); when the local context is an evaluation
context, its inputs, outputs, value, properties and component replace the
clone's, set or not, and its deployment spec replaces the vendor's only when
it is not nil. The vendor's context is a value that the derivation reads. -/
theorem C20_derived_context (env : Env) :
    CatalogConfigProvider.deriveContext env LocalContext.nil
      = { env.Clone env.EvaluationContext with
          DeploymentSpec := env.EvaluationContext.DeploymentSpec } ∧
    (∀ v, CatalogConfigProvider.deriveContext env (LocalContext.other v)
      = { env.Clone env.EvaluationContext with
          DeploymentSpec := env.EvaluationContext.DeploymentSpec }) ∧
    (env.Clone env.EvaluationContext = env.EvaluationContext →
      CatalogConfigProvider.deriveContext env LocalContext.nil = env.EvaluationContext) ∧
    (∀ ltx,
      (CatalogConfigProvider.deriveContext env (LocalContext.evaluationContext ltx)).Inputs
        = ltx.Inputs ∧
      (CatalogConfigProvider.deriveContext env (LocalContext.evaluationContext ltx)).Outputs
        = ltx.Outputs ∧
      (CatalogConfigProvider.deriveContext env (LocalContext.evaluationContext ltx)).Value
        = ltx.Value ∧
      (CatalogConfigProvider.deriveContext env (LocalContext.evaluationContext ltx)).Properties
        = ltx.Properties ∧
      (CatalogConfigProvider.deriveContext env (LocalContext.evaluationContext ltx)).Component
        = ltx.Component ∧
      (ltx.DeploymentSpec = Value.null →
        (CatalogConfigProvider.deriveContext env
          (LocalContext.evaluationContext ltx)).DeploymentSpec
          = env.EvaluationContext.DeploymentSpec) ∧
      (ltx.DeploymentSpec ≠ Value.null →
        (CatalogConfigProvider.deriveContext env
          (LocalContext.evaluationContext ltx)).DeploymentSpec
          = ltx.DeploymentSpec)) := by
  refine ⟨rfl, fun _ => rfl, ?_, ?_⟩
  · intro hclone
    show ({ env.Clone env.EvaluationContext with
      DeploymentSpec := env.EvaluationContext.DeploymentSpec } : EvaluationContext)
        = env.EvaluationContext
    rw [hclone]
  · intro ltx
    cases hd : ltx.DeploymentSpec <;>
      simp [CatalogConfigProvider.deriveContext, hd]

/-- C20 (counterexample): the vendor's context holds the inputs `region: eu`
and the caller's local context sets the ambient value only; the derived
context has nil inputs, not the vendor's. -/
theorem C20_unset_local_inputs_replace_base :
    Sample.valueOnly.Inputs = Value.null ∧
    Sample.envRegion.EvaluationContext.Inputs = Value.map [("region", Value.str "eu")] ∧
    (CatalogConfigProvider.deriveContext Sample.envRegion
      (LocalContext.evaluationContext Sample.valueOnly)).Inputs = Value.null ∧
    (CatalogConfigProvider.deriveContext Sample.envRegion
      (LocalContext.evaluationContext Sample.valueOnly)).Inputs
      ≠ Sample.envRegion.EvaluationContext.Inputs :=
  ⟨rfl, rfl, rfl, fun h => Value.noConfusion h⟩

/-- C20 (witness): with the vendor's context `regionContext` and a local
context that sets the ambient value only, the derived context has the local
value 7 and, the local deployment spec being nil, the vendor's deployment
spec `fleet`. -/
theorem C20_derived_context_witness :
    (CatalogConfigProvider.deriveContext Sample.envRegion
      (LocalContext.evaluationContext Sample.valueOnly)).Value = Value.num 7 ∧
    (CatalogConfigProvider.deriveContext Sample.envRegion
      (LocalContext.evaluationContext Sample.valueOnly)).DeploymentSpec = Value.str "fleet" :=
  ⟨((C20_derived_context Sample.envRegion).2.2.2 Sample.valueOnly).2.2.1,
    ((C20_derived_context Sample.envRegion).2.2.2 Sample.valueOnly).2.2.2.2.2.1 rfl⟩

/-! ### Object types other than solution, and the return values -/

/-- The trace of a payload value does not depend on the solution store. -/
theorem patch_traceValue_solution_store (env : Env)
    (getSolution : String → String → Except GoError SolutionState)
    (upsertSolution : String → String → SolutionSpec → Option GoError) (ctx : Value) :
    ∀ (fuel : Nat) (v : Value),
      PatchStageProvider.traceValue
          { env with GetSolution := getSolution, UpsertSolution := upsertSolution } ctx fuel v
        = PatchStageProvider.traceValue env ctx fuel v := by
  intro fuel
  induction fuel with
  | zero => intro v; rfl
  | succ fuel ih =>
    intro v
    have hfun : PatchStageProvider.traceValue
        { env with GetSolution := getSolution, UpsertSolution := upsertSolution } ctx fuel
          = PatchStageProvider.traceValue env ctx fuel :=
      funext ih
    cases v with
    | str s =>
      rw [PatchStageProvider.traceValue, PatchStageProvider.traceValue, hfun]
    | seq xs =>
      rw [PatchStageProvider.traceValue, PatchStageProvider.traceValue, hfun]
    | map kvs =>
      rw [PatchStageProvider.traceValue, PatchStageProvider.traceValue, hfun]
    | null => rfl
    | num n => rfl
    | bool b => rfl
    | component n ps => rfl

theorem tracePayload_solution_store (env : Env)
    (getSolution : String → String → Except GoError SolutionState)
    (upsertSolution : String → String → SolutionSpec → Option GoError) (fuel : Nat)
    (ctx : Value) (properties : Props) :
    PatchStageProvider.tracePayload
        { env with GetSolution := getSolution, UpsertSolution := upsertSolution } fuel ctx
        properties
      = PatchStageProvider.tracePayload env fuel ctx properties := by
  unfold PatchStageProvider.tracePayload
  rw [funext (patch_traceValue_solution_store env getSolution upsertSolution ctx fuel)]

/-- The outputs and the boolean of a successful `Process` are empty and false. -/
theorem Process_result_ok (env : Env) (fuel : Nat) (inputs outputs : Props) (more : Bool)
    (h : (PatchStageProvider.Process env fuel inputs).result = Except.ok (outputs, more)) :
    outputs = [] ∧ more = false := by
  unfold PatchStageProvider.Process at h
  simp only at h
  split at h
  · simp at h
  · split at h
    · simp at h
    · split at h
      · split at h
        · simp at h
        · split at h
          · simp at h
          · split at h
            · unfold PatchStageProvider.persist at h
              split at h
              · simp at h
              · simp only [Except.ok.injEq, Prod.mk.injEq] at h
                exact ⟨h.1.symm, h.2.symm⟩
            · simp only [Except.ok.injEq, Prod.mk.injEq] at h
              exact ⟨h.1.symm, h.2.symm⟩
      · simp only [Except.ok.injEq, Prod.mk.injEq] at h
        exact ⟨h.1.symm, h.2.symm⟩

/-- C21: when the payload resolves and traces successfully and the object type
is not `"solution"`, `Process` returns empty outputs, false and no error and
makes no upsert, whatever the solution store would answer; and whenever
`Process` succeeds, for any object type, its outputs are empty and its
boolean is false. -/
theorem C21_other_object_types (env : Env)
    (getSolution : String → String → Except GoError SolutionState)
    (upsertSolution : String → String → SolutionSpec → Option GoError)
    (fuel : Nat) (inputs properties payload : Props)
    (htype : env.ReadInputString inputs "objectType" ≠ "solution")
    (hres : PatchStageProvider.resolvePayload env (env.ReadInputString inputs "patchSource")
      (index inputs "patchContent") (env.ReadInputString inputs "component")
      = Except.ok properties)
    (htr : PatchStageProvider.tracePayload env fuel (index inputs "context") properties
      = Except.ok payload) :
    PatchStageProvider.Process
        { env with GetSolution := getSolution, UpsertSolution := upsertSolution } fuel inputs
      = PatchStageProvider.Run.mk (Except.ok ([], false)) [] ∧
    (∀ (anyEnv : Env) (anyFuel : Nat) (anyInputs outputs : Props) (more : Bool),
      (PatchStageProvider.Process anyEnv anyFuel anyInputs).result = Except.ok (outputs, more) →
      outputs = [] ∧ more = false) := by
  refine ⟨?_, fun anyEnv anyFuel anyInputs outputs more h =>
    Process_result_ok anyEnv anyFuel anyInputs outputs more h⟩
  have hres2 : PatchStageProvider.resolvePayload
      { env with GetSolution := getSolution, UpsertSolution := upsertSolution }
      (env.ReadInputString inputs "patchSource") (index inputs "patchContent")
      (env.ReadInputString inputs "component") = Except.ok properties := hres
  have htr2 := tracePayload_solution_store env getSolution upsertSolution fuel
    (index inputs "context") properties
  rw [htr] at htr2
  unfold PatchStageProvider.Process
  simp only [hres2, htr2, htype, if_false]

/-- C21 (witness): a request on an object of type `target` succeeds with empty
outputs and without an upsert, also when the solution store fails on every
call. -/
theorem C21_other_object_types_witness :
    Sample.readInputString Sample.patchTarget "objectType" ≠ "solution" ∧
    PatchStageProvider.Process
        { Sample.env [] [] with
          GetSolution := fun _ _ => Except.error (GoError.foreign "store is down"),
          UpsertSolution := fun _ _ _ => some (GoError.foreign "store is down") }
        3 Sample.patchTarget
      = PatchStageProvider.Run.mk (Except.ok ([], false)) [] :=
  ⟨by decide,
    (C21_other_object_types (Sample.env [] [])
      (fun _ _ => Except.error (GoError.foreign "store is down"))
      (fun _ _ _ => some (GoError.foreign "store is down")) 3 Sample.patchTarget
      [("id", Value.str "a")] [("id", Value.str "a")] (by decide) rfl rfl).1⟩

/-! ### Removal of a field -/

theorem lookup_deleteKey_self (k : String) (m : Props) :
    lookup k (CatalogConfigProvider.deleteKey k m) = none := by
  induction m with
  | nil => rfl
  | cons kv rest ih =>
    obtain ⟨k1, v1⟩ := kv
    by_cases h : k1 = k
    · simp [CatalogConfigProvider.deleteKey, h, ih]
    · simp [CatalogConfigProvider.deleteKey, lookup, h, ih]

theorem lookup_deleteKey_ne (k field : String) (m : Props) (h : k ≠ field) :
    lookup k (CatalogConfigProvider.deleteKey field m) = lookup k m := by
  induction m with
  | nil => rfl
  | cons kv rest ih =>
    obtain ⟨k1, v1⟩ := kv
    by_cases h1 : k1 = field
    · subst h1
      have h2 : ¬ k1 = k := fun h3 => h h3.symm
      simp [CatalogConfigProvider.deleteKey, lookup, h2, ih]
    · by_cases h2 : k1 = k
      · subst h2
        simp [CatalogConfigProvider.deleteKey, lookup, h1]
      · simp [CatalogConfigProvider.deleteKey, lookup, h1, h2, ih]

/-- C22: on a fetched catalog that lacks the field, `Remove` fails with
NotFound and makes no upsert; on one that holds the field it makes one upsert,
of the catalog spec whose properties are the old ones without the field, every
other property being as before, and returns what the upsert returns. -/
theorem C22_remove_field (env : Env)
    (upsertCatalog : String → CatalogSpec → Option GoError) (object field : String)
    (catalog : CatalogState) (hget : env.GetCatalog object = Except.ok catalog) :
    (lookup field catalog.Spec.Properties = none →
      CatalogConfigProvider.Remove env upsertCatalog object field
        = CatalogConfigProvider.StoreRun.mk
            (Except.error (Fault.error (GoError.coa "field not found" State.NotFound))) []) ∧
    (∀ v, lookup field catalog.Spec.Properties = some v →
      (CatalogConfigProvider.Remove env upsertCatalog object field).upserts
        = [(object, CatalogSpec.mk
            (CatalogConfigProvider.deleteKey field catalog.Spec.Properties)
            catalog.Spec.ParentName)] ∧
      (CatalogConfigProvider.Remove env upsertCatalog object field).result
        = (match upsertCatalog object (CatalogSpec.mk
            (CatalogConfigProvider.deleteKey field catalog.Spec.Properties)
            catalog.Spec.ParentName) with
          | some err => Except.error (Fault.error err)
          | none => Except.ok ()) ∧
      lookup field (CatalogConfigProvider.deleteKey field catalog.Spec.Properties) = none ∧
      (∀ k, k ≠ field →
        lookup k (CatalogConfigProvider.deleteKey field catalog.Spec.Properties)
          = lookup k catalog.Spec.Properties)) := by
  refine ⟨?_, ?_⟩
  · intro hnone
    unfold CatalogConfigProvider.Remove
    simp only [hget, hnone]
  · intro v hsome
    refine ⟨?_, ?_, lookup_deleteKey_self field _, fun k hk => lookup_deleteKey_ne k field _ hk⟩
    · unfold CatalogConfigProvider.Remove
      simp only [hget, hsome]
      split <;> rfl
    · unfold CatalogConfigProvider.Remove
      simp only [hget, hsome]
      split <;> simp_all

/-- C22 (witness): removing `timeout` from the catalog `override` upserts the
catalog without properties and with its parent `base`. -/
theorem C22_remove_field_witness :
    Sample.getCatalog Sample.overriding "override"
      = Except.ok (CatalogState.mk "override"
          (CatalogSpec.mk [("timeout", Value.str "45")] "base")) ∧
    (CatalogConfigProvider.Remove (Sample.env Sample.overriding []) (fun _ _ => none)
        "override" "timeout").upserts
      = [("override", CatalogSpec.mk [] "base")] :=
  ⟨rfl,
    ((C22_remove_field (Sample.env Sample.overriding []) (fun _ _ => none) "override" "timeout"
      (CatalogState.mk "override" (CatalogSpec.mk [("timeout", Value.str "45")] "base"))
      rfl).2 (Value.str "45") rfl).1⟩

/-! ### Provider configuration -/

/-- C23: for both providers the configuration from a string map is rejected
with BadConfig `baseUrl is required` when `GetString` reads an empty
`baseUrl`, and with BadConfig `user is required` when it reads a non-empty
`baseUrl` and an empty `user`; with the `GetString` modelled from the spec, a
map with a non-empty `baseUrl`, a non-empty `user` and no `password` entry is
accepted and gives these two values and an empty password. -/
theorem C23_config_from_map
    (getString : List (String × String) → String → Except GoError String)
    (properties : List (String × String)) :
    (getString properties "baseUrl" = Except.ok "" →
      CatalogConfigProviderConfigFromMap getString properties
        = Except.error (GoError.coa "baseUrl is required" State.BadConfig) ∧
      SymphonyStageProviderConfigFromMap getString properties
        = Except.error (GoError.coa "baseUrl is required" State.BadConfig)) ∧
    (∀ b, getString properties "baseUrl" = Except.ok b → b ≠ "" →
      getString properties "user" = Except.ok "" →
      CatalogConfigProviderConfigFromMap getString properties
        = Except.error (GoError.coa "user is required" State.BadConfig) ∧
      SymphonyStageProviderConfigFromMap getString properties
        = Except.error (GoError.coa "user is required" State.BadConfig)) ∧
    (∀ b u, lookupString "baseUrl" properties = some b → b ≠ "" →
      lookupString "user" properties = some u → u ≠ "" →
      lookupString "password" properties = none →
      CatalogConfigProviderConfigFromMap GetString properties
        = Except.ok (CatalogConfigProviderConfig.mk b u "") ∧
      SymphonyStageProviderConfigFromMap GetString properties
        = Except.ok (PatchStageProviderConfig.mk b u "")) := by
  refine ⟨?_, ?_, ?_⟩
  · intro h
    simp [CatalogConfigProviderConfigFromMap, SymphonyStageProviderConfigFromMap, h]
  · intro b hb hne hu
    simp [CatalogConfigProviderConfigFromMap, SymphonyStageProviderConfigFromMap, hb, hne, hu]
  · intro b u hb hbne hu hune hp
    simp [CatalogConfigProviderConfigFromMap, SymphonyStageProviderConfigFromMap, GetString,
      hb, hbne, hu, hune, hp]

/-- C23 (witness): the map with `baseUrl` and `user` and without `password` is
accepted by both providers, with an empty password. -/
theorem C23_config_from_map_witness :
    CatalogConfigProviderConfigFromMap GetString
        [("baseUrl", "http://symphony/v1alpha2/"), ("user", "admin")]
      = Except.ok (CatalogConfigProviderConfig.mk "http://symphony/v1alpha2/" "admin" "") ∧
    SymphonyStageProviderConfigFromMap GetString
        [("baseUrl", "http://symphony/v1alpha2/"), ("user", "admin")]
      = Except.ok (PatchStageProviderConfig.mk "http://symphony/v1alpha2/" "admin" "") :=
  (C23_config_from_map GetString
    [("baseUrl", "http://symphony/v1alpha2/"), ("user", "admin")]).2.2
    "http://symphony/v1alpha2/" "admin" rfl (by decide) rfl (by decide) rfl

/-! ### The instances manager over an empty store -/

/-- C24: over the empty state store, for every name, spec and scope,
`UpsertSpec` succeeds; on the store it leaves, `GetSpec` of the name and scope
succeeds with a state whose id is the name and `ListSpec` of the scope returns
exactly one state, whose id is the name; `DeleteSpec` then succeeds, and on
the store it leaves `GetSpec` of the name and scope fails. -/
theorem C24_instances_round_trip (name scope : String) (spec : Value) :
    ∃ stored,
      InstancesManager.UpsertSpec [] name spec scope = Except.ok stored ∧
      (∃ state, InstancesManager.GetSpec stored name scope = Except.ok state ∧
        state.Id = name) ∧
      (∃ state, InstancesManager.ListSpec stored scope = Except.ok [state] ∧
        state.Id = name) ∧
      ∃ emptied,
        InstancesManager.DeleteSpec stored name scope = Except.ok emptied ∧
        ∃ err, InstancesManager.GetSpec emptied name scope = Except.error err := by
  refine ⟨[InstancesManager.StateEntry.mk name scope spec], rfl, ?_, ?_, ?_⟩
  · exact ⟨InstancesManager.InstanceState.mk name spec,
      by simp [InstancesManager.GetSpec, InstancesManager.storeGet], rfl⟩
  · exact ⟨InstancesManager.InstanceState.mk name spec,
      by simp [InstancesManager.ListSpec, InstancesManager.storeList], rfl⟩
  · refine ⟨[], by simp [InstancesManager.DeleteSpec, InstancesManager.storeDelete], ?_⟩
    exact ⟨_, by simp [InstancesManager.GetSpec, InstancesManager.storeGet]; rfl⟩

/-! ### The conversion of the payload to a component spec -/

/-- C25 (failing input): the catalog `componentPatch` holds the mapping
`name: c` under `spec`; a whole-component request on `s` with this catalog as
its payload resolves and traces the payload, fetches the solution, and then
panics on the conversion of `spec` to a component spec. -/
theorem C25_catalog_payload_panics :
    PatchStageProvider.resolvePayload (Sample.env Sample.componentPatchCatalog [Sample.solutionS])
        "catalog" (Value.str "componentPatch") ""
      = Except.ok [("spec", Value.map [("name", Value.str "c")])] ∧
    PatchStageProvider.tracePayload (Sample.env Sample.componentPatchCatalog [Sample.solutionS])
        3 Value.null [("spec", Value.map [("name", Value.str "c")])]
      = Except.ok [("spec", Value.map [("name", Value.str "c")])] ∧
    PatchStageProvider.Process (Sample.env Sample.componentPatchCatalog [Sample.solutionS]) 3
        Sample.patchFromCatalog
      = PatchStageProvider.Run.mk (Except.error Fault.panic) [] :=
  ⟨rfl, rfl, rfl⟩

/-! ### The frame of a property-level patch -/

/-- A successful patch of a property keeps the name of the component and
every other property, and with a sub-key every other entry of the mapping. -/
theorem patchProperty_frame (payload : Props)
    (propertyName subKey dedupKey patchAction : String) (c c2 : ComponentSpec) (u : Bool)
    (h : PatchStageProvider.patchProperty payload propertyName subKey dedupKey patchAction c
      = Except.ok (c2, u)) :
    c2.Name = c.Name ∧
    (∀ k, k ≠ propertyName → lookup k c2.Properties = lookup k c.Properties) ∧
    (subKey ≠ "" → ∀ m, lookup propertyName c.Properties = some (Value.map m) →
      ∃ m2, lookup propertyName c2.Properties = some (Value.map m2) ∧
        ∀ k, k ≠ subKey → lookup k m2 = lookup k m) := by
  unfold PatchStageProvider.patchProperty at h
  cases hl : lookup propertyName c.Properties with
  | none =>
    simp only [hl, Except.ok.injEq, Prod.mk.injEq] at h
    obtain ⟨hc, _⟩ := h
    subst hc
    exact ⟨rfl, fun _ _ => rfl, fun _ m hm => by simp at hm⟩
  | some p =>
    simp only [hl] at h
    by_cases hs : subKey = ""
    · simp only [hs, ne_eq, not_true_eq_false, if_false] at h
      cases p with
      | seq targetMap =>
        simp only at h
        cases hp : PatchStageProvider.patchSequence payload dedupKey patchAction targetMap with
        | error e => simp [hp] at h
        | ok r =>
          simp only [hp, Except.ok.injEq, Prod.mk.injEq] at h
          obtain ⟨hc, _⟩ := h
          subst hc
          refine ⟨rfl, ?_, fun hne => absurd hs hne⟩
          intro k hk
          exact lookup_assign_ne k propertyName _ _ (fun h2 => hk h2.symm)
      | _ => simp [PatchStageProvider.badConfig] at h
    · simp only [ne_eq, hs, not_false_eq_true, if_true] at h
      cases p with
      | map detailedTarget =>
        simp only at h
        cases hsub : lookup subKey detailedTarget with
        | none => simp [hsub, PatchStageProvider.badConfig] at h
        | some target =>
          cases target with
          | seq targetMap =>
            simp only [hsub] at h
            cases hp : PatchStageProvider.patchSequence payload dedupKey patchAction
                targetMap with
            | error e => simp [hp] at h
            | ok r =>
              simp only [hp, Except.ok.injEq, Prod.mk.injEq] at h
              obtain ⟨hc, _⟩ := h
              subst hc
              refine ⟨rfl, ?_, ?_⟩
              · intro k hk
                exact lookup_assign_ne k propertyName _ _ (fun h2 => hk h2.symm)
              · intro _ m hm
                injection hm with hm
                injection hm with hm
                subst hm
                refine ⟨_, lookup_assign_self propertyName _ _, ?_⟩
                intro k hk
                exact lookup_assign_ne k subKey _ _ (fun h2 => hk h2.symm)
          | _ => simp [hsub, PatchStageProvider.badConfig] at h
      | _ => simp [PatchStageProvider.badConfig] at h

/-- C26: on a property-level patch of a fetched solution whose first component
named `component` is `c`, between the components `pre` and `post`, every
upsert that `Process` makes sends the components `pre`, a component `c2` and
`post`, in this order, where `c2` has the name of `c` and, for every key other
than `property`, the property that `c` has; with a sub-key, when the property
of `c` is a mapping, the property of `c2` is a mapping with the same entry
under every key other than the sub-key. -/
theorem C26_property_patch_frame (env : Env) (fuel : Nat)
    (inputs properties payload : Props) (solution : SolutionState)
    (pre : List ComponentSpec) (c : ComponentSpec) (post : List ComponentSpec)
    (htype : env.ReadInputString inputs "objectType" = "solution")
    (hres : PatchStageProvider.resolvePayload env (env.ReadInputString inputs "patchSource")
      (index inputs "patchContent") (env.ReadInputString inputs "component")
      = Except.ok properties)
    (htr : PatchStageProvider.tracePayload env fuel (index inputs "context") properties
      = Except.ok payload)
    (hsol : env.GetSolution (env.ReadInputString inputs "objectName")
      (PatchStageProvider.scopeOf env inputs) = Except.ok solution)
    (hcomp : env.ReadInputString inputs "component" ≠ "")
    (hsplit : solution.Spec.Components = pre ++ c :: post)
    (hc : c.Name = env.ReadInputString inputs "component")
    (hpre : ∀ x ∈ pre, x.Name ≠ env.ReadInputString inputs "component") :
    ∀ call ∈ (PatchStageProvider.Process env fuel inputs).upserts,
      ∃ c2, call = (env.ReadInputString inputs "objectName",
          PatchStageProvider.scopeOf env inputs, SolutionSpec.mk (pre ++ c2 :: post)) ∧
        (pre ++ c2 :: post).length = solution.Spec.Components.length ∧
        c2.Name = c.Name ∧
        (∀ k, k ≠ env.ReadInputString inputs "property" →
          lookup k c2.Properties = lookup k c.Properties) ∧
        (env.ReadInputString inputs "subKey" ≠ "" →
          ∀ m, lookup (env.ReadInputString inputs "property") c.Properties
              = some (Value.map m) →
            ∃ m2, lookup (env.ReadInputString inputs "property") c2.Properties
                = some (Value.map m2) ∧
              ∀ k, k ≠ env.ReadInputString inputs "subKey" → lookup k m2 = lookup k m) := by
  intro call hcall
  rw [Process_solution env fuel inputs properties payload solution htype hres htr hsol]
    at hcall
  simp only [PatchStageProvider.patchSolution, if_neg hcomp, hsplit] at hcall
  rw [patchComponents_first payload _ _ _ _ _ pre c post hc hpre] at hcall
  cases hp : PatchStageProvider.patchProperty payload (env.ReadInputString inputs "property")
      (env.ReadInputString inputs "subKey") (env.ReadInputString inputs "dedupKey")
      (PatchStageProvider.actionOf env inputs) c with
  | error e =>
    simp [hp] at hcall
  | ok r =>
    obtain ⟨c2, u⟩ := r
    obtain ⟨hname, hprops, hsub⟩ := patchProperty_frame payload _ _ _ _ c c2 u hp
    simp only [hp] at hcall
    cases u with
    | false => simp at hcall
    | true =>
      simp only [if_true, persist_upserts, List.mem_singleton] at hcall
      refine ⟨c2, hcall, ?_, hname, hprops, hsub⟩
      rw [hsplit]
      simp

/-- C26 (witness): adding the entry `id: b` to the property `p` of component
`c` of the solution `s` upserts `s` with one component, named `c`; on the
solution with the components `front`, `c` (properties `keep` and `p`) and a
second `c`, the upsert sends `front`, the patched `c` with `keep` as it was,
and the second `c`, in this order. -/
theorem C26_property_patch_frame_witness :
    Sample.readInputString Sample.addEntryB "component" ≠ "" ∧
    (PatchStageProvider.Process (Sample.env [] [Sample.solutionS]) 3 Sample.addEntryB).upserts
      = [("s", "default", SolutionSpec.mk [ComponentSpec.mk "c"
          [("p", Value.seq [Value.map [("id", Value.str "a")],
            Value.map [("id", Value.str "b")]])]])] ∧
    (∀ call ∈ (PatchStageProvider.Process (Sample.env [] [Sample.solutionS]) 3
        Sample.addEntryB).upserts,
      ∃ c2, call = ("s", "default", SolutionSpec.mk ([] ++ c2 :: [])) ∧
        c2.Name = "c") ∧
    (PatchStageProvider.Process (Sample.env [] [Sample.solutionWide]) 3
        Sample.addEntryB).upserts
      = [("s", "default", SolutionSpec.mk
          [ComponentSpec.mk "front" [("p", Value.seq [])],
           ComponentSpec.mk "c" [("keep", Value.str "x"),
             ("p", Value.seq [Value.map [("id", Value.str "a")],
               Value.map [("id", Value.str "b")]])],
           ComponentSpec.mk "c" [("p", Value.seq [])]])] ∧
    (∀ call ∈ (PatchStageProvider.Process (Sample.env [] [Sample.solutionWide]) 3
        Sample.addEntryB).upserts,
      ∃ c2, call = ("s", "default", SolutionSpec.mk
            ([ComponentSpec.mk "front" [("p", Value.seq [])]] ++ c2 ::
              [ComponentSpec.mk "c" [("p", Value.seq [])]])) ∧
        c2.Name = "c" ∧ lookup "keep" c2.Properties = some (Value.str "x")) :=
  ⟨by decide, rfl, fun call hcall => by
    obtain ⟨c2, h1, _, h2, _⟩ :=
      C26_property_patch_frame (Sample.env [] [Sample.solutionS]) 3 Sample.addEntryB
        [("id", Value.str "b")] [("id", Value.str "b")] Sample.solutionS []
        (ComponentSpec.mk "c" [("p", Value.seq [Value.map [("id", Value.str "a")]])]) []
        rfl rfl rfl rfl (by decide) rfl rfl (fun x hx => absurd hx (List.not_mem_nil x))
        call hcall
    exact ⟨c2, h1, h2⟩, rfl, fun call hcall => by
    obtain ⟨c2, h1, _, h2, h3, _⟩ :=
      C26_property_patch_frame (Sample.env [] [Sample.solutionWide]) 3 Sample.addEntryB
        [("id", Value.str "b")] [("id", Value.str "b")] Sample.solutionWide
        [ComponentSpec.mk "front" [("p", Value.seq [])]]
        (ComponentSpec.mk "c" [("keep", Value.str "x"),
          ("p", Value.seq [Value.map [("id", Value.str "a")]])])
        [ComponentSpec.mk "c" [("p", Value.seq [])]]
        rfl rfl rfl rfl (by decide) rfl rfl
        (fun x hx => by rw [List.mem_singleton.mp hx]; decide)
        call hcall
    exact ⟨c2, h1, h2, by rw [h3 "keep" (by decide)]; rfl⟩⟩

/-! ### A property-level patch that addresses nothing -/

theorem patchComponents_absent (payload : Props)
    (componentName propertyName subKey dedupKey patchAction : String)
    (components : List ComponentSpec) (h : ∀ x ∈ components, x.Name ≠ componentName) :
    PatchStageProvider.patchComponents payload componentName propertyName subKey dedupKey
        patchAction components = Except.ok (components, false) := by
  induction components with
  | nil => rfl
  | cons x rest ih =>
    have hx : x.Name ≠ componentName := h x (List.mem_cons_self _ _)
    rw [PatchStageProvider.patchComponents, if_neg hx,
      ih (fun y hy => h y (List.mem_cons_of_mem _ hy))]

/-- C27: on a property-level patch whose payload resolved and traced, on a
fetched solution, `Process` returns empty outputs, false and no error and
makes no upsert when no component is named `component`, and when the first
component so named has no property named `property`, for every action and
payload. -/
theorem C27_nothing_addressed (env : Env) (fuel : Nat)
    (inputs properties payload : Props) (solution : SolutionState)
    (htype : env.ReadInputString inputs "objectType" = "solution")
    (hres : PatchStageProvider.resolvePayload env (env.ReadInputString inputs "patchSource")
      (index inputs "patchContent") (env.ReadInputString inputs "component")
      = Except.ok properties)
    (htr : PatchStageProvider.tracePayload env fuel (index inputs "context") properties
      = Except.ok payload)
    (hsol : env.GetSolution (env.ReadInputString inputs "objectName")
      (PatchStageProvider.scopeOf env inputs) = Except.ok solution)
    (hcomp : env.ReadInputString inputs "component" ≠ "") :
    ((∀ x ∈ solution.Spec.Components, x.Name ≠ env.ReadInputString inputs "component") →
      PatchStageProvider.Process env fuel inputs
        = PatchStageProvider.Run.mk (Except.ok ([], false)) []) ∧
    (∀ pre c post, solution.Spec.Components = pre ++ c :: post →
      c.Name = env.ReadInputString inputs "component" →
      (∀ x ∈ pre, x.Name ≠ env.ReadInputString inputs "component") →
      lookup (env.ReadInputString inputs "property") c.Properties = none →
      PatchStageProvider.Process env fuel inputs
        = PatchStageProvider.Run.mk (Except.ok ([], false)) []) := by
  refine ⟨?_, ?_⟩
  · intro hnone
    rw [Process_solution env fuel inputs properties payload solution htype hres htr hsol]
    simp only [PatchStageProvider.patchSolution, if_neg hcomp]
    rw [patchComponents_absent payload _ _ _ _ _ _ hnone]
    simp
  · intro pre c post hsplit hc hpre hprop
    rw [Process_solution env fuel inputs properties payload solution htype hres htr hsol]
    simp only [PatchStageProvider.patchSolution, if_neg hcomp, hsplit]
    rw [patchComponents_first payload _ _ _ _ _ pre c post hc hpre]
    simp [PatchStageProvider.patchProperty, hprop]

/-- C27 (witness): a property-level request on `s` that names the component
`ghost` succeeds without an upsert. -/
theorem C27_nothing_addressed_witness :
    Sample.readInputString Sample.patchGhostProperty "component" ≠ "" ∧
    (∀ x ∈ Sample.solutionS.Spec.Components, x.Name ≠ "ghost") ∧
    PatchStageProvider.Process (Sample.env [] [Sample.solutionS]) 3 Sample.patchGhostProperty
      = PatchStageProvider.Run.mk (Except.ok ([], false)) [] :=
  have hnone : ∀ x ∈ Sample.solutionS.Spec.Components, x.Name ≠ "ghost" := by
    intro x hx
    rw [List.mem_singleton.mp hx]
    decide
  ⟨by decide, hnone,
    (C27_nothing_addressed (Sample.env [] [Sample.solutionS]) 3 Sample.patchGhostProperty
      [("id", Value.str "b")] [("id", Value.str "b")] Sample.solutionS
      rfl rfl rfl rfl (by decide)).1 hnone⟩

/-! ### Dedup matching on an absent field -/

theorem goEq_null_iff (x : Value) : goEq x Value.null = some true ↔ x = Value.null := by
  cases x <;> simp [goEq]

theorem index_eq_null_iff (m : Props) (k : String) :
    index m k = Value.null ↔ (lookup k m = none ∨ lookup k m = some Value.null) := by
  unfold index
  cases h : lookup k m with
  | none => simp
  | some v => simp

/-- With a payload that has no dedup field, the entries that match are the
mappings whose dedup field is absent or nil. -/
theorem isMatch_absent_iff (payload : Props) (dedupKey : String)
    (hpayload : lookup dedupKey payload = none) (v : Value) :
    isMatch payload dedupKey v = true ↔
      ∃ vmap, v = Value.map vmap ∧
        (lookup dedupKey vmap = none ∨ lookup dedupKey vmap = some Value.null) := by
  have hnull : index payload dedupKey = Value.null := by
    simp [index, hpayload]
  cases v with
  | map vmap =>
    simp only [isMatch, hnull]
    constructor
    · intro h
      refine ⟨vmap, rfl, (index_eq_null_iff vmap dedupKey).mp ?_⟩
      apply (goEq_null_iff _).mp
      split at h
      · assumption
      · simp at h
    · rintro ⟨vmap2, hv, hl⟩
      injection hv with hv
      subst hv
      have hg := (goEq_null_iff _).mpr ((index_eq_null_iff vmap dedupKey).mpr hl)
      simp [hg]
  | _ => simp [isMatch]

/-- C28 (amended): with a non-empty dedup key and a payload that has no dedup
field, an entry matches exactly when it is a mapping whose dedup field is
absent or nil; the first such entry of the sequence is replaced by the
payload, or deleted for `"remove"`, the other entries staying as they are; and
for every payload an entry that is not a mapping does not match. -/
theorem C28_absent_field_matches (payload : Props) (dedupKey patchAction : String)
    (hk : dedupKey ≠ "") (hpayload : lookup dedupKey payload = none) :
    (∀ v, isMatch payload dedupKey v = true ↔
      ∃ vmap, v = Value.map vmap ∧
        (lookup dedupKey vmap = none ∨ lookup dedupKey vmap = some Value.null)) ∧
    (∀ pre vmap post,
      (lookup dedupKey vmap = none ∨ lookup dedupKey vmap = some Value.null) →
      (∀ x ∈ pre, ∀ m, x = Value.map m →
        lookup dedupKey m ≠ none ∧ lookup dedupKey m ≠ some Value.null) →
      PatchStageProvider.patchSequence payload dedupKey patchAction
          (pre ++ Value.map vmap :: post)
        = Except.ok (if patchAction = "remove" then pre ++ post
            else pre ++ Value.map payload :: post)) ∧
    (∀ (anyPayload : Props) (v : Value), (∀ m, v ≠ Value.map m) →
      isMatch anyPayload dedupKey v = false) := by
  refine ⟨isMatch_absent_iff payload dedupKey hpayload, ?_, ?_⟩
  · intro pre vmap post hv hpre
    apply patchSequence_first_match payload dedupKey patchAction hk
    · intro x hx
      cases hm : isMatch payload dedupKey x with
      | false => rfl
      | true =>
        obtain ⟨m, hxm, hl⟩ := (isMatch_absent_iff payload dedupKey hpayload x).mp hm
        obtain ⟨h1, h2⟩ := hpre x hx m hxm
        rcases hl with hl | hl
        · exact absurd hl h1
        · exact absurd hl h2
    · exact (isMatch_absent_iff payload dedupKey hpayload _).mpr ⟨vmap, rfl, hv⟩
  · intro anyPayload v hv
    cases v with
    | map m => exact absurd rfl (hv m)
    | _ => rfl

/-- C28 (witness): the payload `v: 9` has no `id`; in the sequence of the
number 3, the entry `id: a` and the entry `v: 1`, the third entry is the
first mapping without `id`, and the default action replaces it. -/
theorem C28_absent_field_matches_witness :
    ("id" : String) ≠ "" ∧ lookup "id" [("v", Value.num 9)] = none ∧
    PatchStageProvider.patchSequence [("v", Value.num 9)] "id" "add"
        ([Value.num 3, Value.map [("id", Value.str "a")]] ++
          Value.map [("v", Value.num 1)] :: [])
      = Except.ok (if ("add" : String) = "remove"
          then [Value.num 3, Value.map [("id", Value.str "a")]] ++ []
          else [Value.num 3, Value.map [("id", Value.str "a")]] ++
            Value.map [("v", Value.num 9)] :: []) :=
  ⟨by decide, rfl,
    (C28_absent_field_matches [("v", Value.num 9)] "id" "add" (by decide) rfl).2.1
      [Value.num 3, Value.map [("id", Value.str "a")]] [("v", Value.num 1)] []
      (Or.inl rfl)
      (by
        intro x hx m hxm
        rcases List.mem_cons.mp hx with h | hx
        · rw [h] at hxm
          exact Value.noConfusion hxm
        · rcases List.mem_cons.mp hx with h | hx
          · rw [h] at hxm
            injection hxm with hxm
            subst hxm
            exact ⟨fun h2 => Option.noConfusion h2,
              fun h2 => by
                have h3 : some (Value.str "a") = some Value.null := h2
                injection h3 with h3
                exact Value.noConfusion h3⟩
          · exact absurd hx (List.not_mem_nil _))⟩

/-- C28 (counterexample): the payload `v: 9` has no `id`; the first entry of
the sequence holds `id` with the value nil and the second entry is the first
one without `id`; the default action replaces the first entry and leaves the
second one as it is. -/
theorem C28_null_field_matches_first :
    lookup "id" [("v", Value.num 9)] = none ∧
    lookup "id" [("id", Value.null)] = some Value.null ∧
    lookup "id" [("v", Value.num 1)] = none ∧
    PatchStageProvider.patchSequence [("v", Value.num 9)] "id" "add"
        [Value.map [("id", Value.null)], Value.map [("v", Value.num 1)]]
      = Except.ok [Value.map [("v", Value.num 9)], Value.map [("v", Value.num 1)]] :=
  ⟨rfl, rfl, rfl, rfl⟩
